import Mathlib

/-!
# s3cli: the v2 request signer and presigner

A shallow embedding of `v2.go` (`s3ParamsToSign`, `sign`, `v2Presign`) and of
`S3Client.presignObjectV2` from `s3cli.go`, with theorems about the canonical
string, the `Authorization` header and the presigned query.

Modelling conventions
* A Go `string` is a sequence of bytes: `Str := List Byte` with `Byte := Fin 256`.
  `str "..."` writes an ASCII literal.
* A Go `map[string]T` is an association list `List (Str × T)`.  The order of the
  list is the order in which a `for ... range` loop visits the entries; Go leaves
  that order unspecified, so statements are proved for every list, and what
  `sign` computes from its own maps does not depend on the order
  (`uriWithQuery_perm`, `headersToSign_perm`).
* The clock and the library primitives are the fields of `Env`: the RFC 1123
  formatter, HMAC-SHA1, base64, `strings.ToLower` (Unicode lower-casing, known
  here by what it does on ASCII strings) and the `float64` conversion of a
  duration to seconds (known here on whole seconds).
* A Go run-time panic is the result `none`.
-/

namespace S3cli

/-! ## Strings -/

/-- A Go `byte`. -/
abbrev Byte := Fin 256

/-- A Go string: its bytes. -/
abbrev Str := List Byte

/-- The bytes of an ASCII literal. -/
def str (s : String) : Str := s.toList.map (fun c => Fin.ofNat c.toNat)

/-- ASCII case folding of one byte (`'A'..'Z'` to `'a'..'z'`). -/
def lowerByte (c : Byte) : Byte := if 65 ≤ c ∧ c ≤ 90 then c + 32 else c

/-- What Go `strings.ToLower` returns for a string of ASCII bytes: every byte
folded. -/
def asciiToLower (s : Str) : Str := s.map lowerByte

/-- Go `strings.HasPrefix s p`. -/
def startsWith (s p : Str) : Bool := p.isPrefixOf s

/-- Go `strings.Join elems sep`. -/
def stringsJoin : List Str → Str → Str
  | [], _ => []
  | [a], _ => a
  | a :: b :: rest, sep => a ++ sep ++ stringsJoin (b :: rest) sep

/-- Go `a <= b` on strings: lexicographic comparison of the bytes. -/
def strLe : Str → Str → Bool
  | [], _ => true
  | _ :: _, [] => false
  | a :: s, b :: t => if a < b then true else if b < a then false else strLe s t

/-- Go `a < b` on strings. -/
def strLt (a b : Str) : Bool := strLe a b && !(strLe b a)

/-- Go `sort.Strings`: the ascending rearrangement of the slice.  (A list of
strings has exactly one ascending rearrangement, see `sortStrings_unique`.) -/
def sortStrings (l : List Str) : List Str :=
  l.insertionSort (fun a b => strLe a b = true)

/-! ## Maps -/

/-- Go `m[k]`, with `none` for an absent key. -/
def mapGet {α : Type} : List (Str × α) → Str → Option α
  | [], _ => none
  | (k', v) :: rest, k => if k' = k then some v else mapGet rest k

/-- Go `m[k] = v`. -/
def mapSet {α : Type} : List (Str × α) → Str → α → List (Str × α)
  | [], k, v => [(k, v)]
  | (k', v') :: rest, k, v =>
      if k' = k then (k, v) :: rest else (k', v') :: mapSet rest k v

/-- Go `http.Header`, a `map[string][]string`. -/
abbrev Header := List (Str × List Str)

/-- Go `url.Values`, a `map[string][]string`. -/
abbrev Values := List (Str × List Str)

/-- Go `Header.Set key value` for a key that is already in canonical MIME form
(`Date`, `Authorization`). -/
def headerSet (h : Header) (canonicalKey value : Str) : Header :=
  mapSet h canonicalKey [value]

/-- Go `Header.Get`: the first value stored under the canonical form of the key,
or the empty string. -/
def headerGet (h : Header) (canonicalKey : Str) : Str :=
  match mapGet h canonicalKey with
  | some (v :: _) => v
  | _ => []

/-- Go `Values.Set key value`. -/
def valuesSet (q : Values) (key value : Str) : Values := mapSet q key [value]

/-! ## URL query strings (`net/url`) -/

/-- Pieces of `s` between the occurrences of the byte `sep`. -/
def splitOn (sep : Byte) : Str → List Str
  | [] => [[]]
  | c :: rest =>
      if c = sep then [] :: splitOn sep rest
      else match splitOn sep rest with
        | [] => [[c]]
        | seg :: segs => (c :: seg) :: segs

/-- Go `strings.Cut s sep` for a one-byte separator: the text before the first
`sep` and the text after it (all of `s` and nothing when `sep` does not occur). -/
def cut (sep : Byte) : Str → Str × Str
  | [] => ([], [])
  | c :: rest =>
      if c = sep then ([], rest)
      else ((c :: (cut sep rest).1), (cut sep rest).2)

/-- Value of a hexadecimal digit. -/
def unhex (c : Byte) : Option Nat :=
  if 48 ≤ c ∧ c ≤ 57 then some (c.val - 48)
  else if 97 ≤ c ∧ c ≤ 102 then some (c.val - 97 + 10)
  else if 65 ≤ c ∧ c ≤ 70 then some (c.val - 65 + 10)
  else none

/-- Go `url.QueryUnescape`; `none` is the `EscapeError`. -/
def queryUnescape : Str → Option Str
  | [] => some []
  | c :: rest =>
      if c = 37 then
        match rest with
        | a :: b :: rest' =>
            match unhex a, unhex b, queryUnescape rest' with
            | some x, some y, some r => some (Fin.ofNat (16 * x + y) :: r)
            | _, _, _ => none
        | _ => none
      else if c = 43 then (queryUnescape rest).map (fun r => 32 :: r)
      else (queryUnescape rest).map (fun r => c :: r)

/-- Go `m[key] = append(m[key], value)`. -/
def valuesAdd (m : Values) (key value : Str) : Values :=
  mapSet m key ((mapGet m key).getD [] ++ [value])

/-- One step of the loop of Go `url.parseQuery`, on the piece `seg`: a piece
with a semicolon, an empty piece and a piece with a bad escape are skipped. -/
def parseQueryStep (m : Values) (seg : Str) : Values :=
  if 59 ∈ seg then m
  else if seg = [] then m
  else
    match queryUnescape (cut 61 seg).1, queryUnescape (cut 61 seg).2 with
    | some key, some value => valuesAdd m key value
    | _, _ => m

/-- Go `req.URL.Query()`: `url.ParseQuery` on the raw query, its error dropped. -/
def urlQuery (rawQuery : Str) : Values :=
  (splitOn 38 rawQuery).foldl parseQueryStep []

/-- Upper-case hexadecimal digit, `"0123456789ABCDEF"[n]`. -/
def hexDigit (n : Nat) : Byte := Fin.ofNat (if n < 10 then 48 + n else 55 + n)

/-- Go `url.shouldEscape c encodeQueryComponent`. -/
def shouldEscape (c : Byte) : Bool :=
  !((97 ≤ c && c ≤ 122) || (65 ≤ c && c ≤ 90) || (48 ≤ c && c ≤ 57)
    || c = 45 || c = 95 || c = 46 || c = 126)

/-- Go `url.QueryEscape`. -/
def queryEscape : Str → Str
  | [] => []
  | c :: rest =>
      if shouldEscape c then
        if c = 32 then 43 :: queryEscape rest
        else 37 :: hexDigit (c.val / 16) :: hexDigit (c.val % 16) :: queryEscape rest
      else c :: queryEscape rest

/-- The `key=value` pieces that Go `Values.Encode` writes, in its order: keys
ascending, the values of a key in their order. -/
def encodeTokens (q : Values) : List Str :=
  (sortStrings (q.map Prod.fst)).flatMap (fun k =>
    ((mapGet q k).getD []).map (fun v => queryEscape k ++ str "=" ++ queryEscape v))

/-- Go `Values.Encode`. -/
def valuesEncode (q : Values) : Str := stringsJoin (encodeTokens q) (str "&")

/-! ## Integers -/

/-- Two's-complement wrap of an integer to `int64`. -/
def wrapInt64 (x : Int) : Int := (x + 2 ^ 63) % 2 ^ 64 - 2 ^ 63

/-- Decimal digits of a natural number, most significant first; `fuel` bounds
the number of digits. -/
def natDigits : Nat → Nat → Str → Str
  | 0, _, acc => acc
  | fuel + 1, n, acc =>
      if n < 10 then Fin.ofNat (48 + n) :: acc
      else natDigits fuel (n / 10) (Fin.ofNat (48 + n % 10) :: acc)

/-- Go `strconv.FormatInt i 10` for an `int64` (at most 19 digits). -/
def formatInt (i : Int) : Str :=
  if i < 0 then 45 :: natDigits 20 i.natAbs [] else natDigits 20 i.natAbs []

/-! ## The environment of the signer -/

/-- What the signer takes from outside: the clock and the library primitives,
with what is used of their behaviour. -/
structure Env where
  /-- Go `time.Now().Unix()`: the current time in Unix seconds. -/
  now : Int
  /-- Go `t.UTC().Format(time.RFC1123)` of the time with the given Unix seconds. -/
  formatRFC1123 : Int → Str
  /-- HMAC-SHA1 digest of a message under a key (`hmac.New(sha1.New, key)`). -/
  hmacSha1 : Str → Str → Str
  /-- Go `base64.StdEncoding` encoding. -/
  base64 : Str → Str
  /-- Go `strings.ToLower`: the Unicode lower-casing of a string. -/
  toLower : Str → Str
  /-- On a string of ASCII bytes `strings.ToLower` folds `'A'..'Z'` byte by byte. -/
  toLower_ascii : ∀ s : Str, (∀ c ∈ s, c < 128) → toLower s = asciiToLower s
  /-- Go `int64(d.Seconds())` for a `time.Duration` of `d` nanoseconds; `Seconds`
  is a `float64`. -/
  durationSeconds : Int → Int
  /-- A duration of a whole number of seconds converts exactly. -/
  durationSeconds_whole : ∀ seconds : Int, durationSeconds (seconds * 1000000000) = seconds

/-- The parts of a Go `*http.Request` that the signer reads or writes. -/
structure Request where
  /-- Go `req.Method`. -/
  method : Str
  /-- Go `req.URL.EscapedPath()`. -/
  escapedPath : Str
  /-- Go `req.URL.RawQuery`. -/
  rawQuery : Str
  /-- Go `req.Header`. -/
  header : Header

/-! ## `v2.go` -/

/-- URL parameters that need to be added to the signature (`v2.go`, lines 16-36). -/
def s3ParamsToSign : List Str :=
  [ str "acl", str "location", str "logging", str "notification", str "partNumber",
    str "policy", str "requestPayment", str "torrent", str "uploadId", str "uploads",
    str "versionId", str "versioning", str "versions", str "response-content-type",
    str "response-content-language", str "response-expires", str "response-cache-control",
    str "response-content-disposition", str "response-content-encoding" ]

/-- The local variables of `v2Presign` and the request it leaves behind. -/
structure Presigned where
  /-- The variable `exp`. -/
  exp : Str
  /-- The variable `strToSign`. -/
  strToSign : Str
  /-- The variable `q` when it is encoded. -/
  q : Values
  /-- The request after the call. -/
  request : Request

/-- The function `v2Presign` (`v2.go`, lines 39-55). -/
def v2Presign (env : Env) (AccessKey SecretKey : Str) (expireTime : Int)
    (req : Request) : Presigned :=
  let exp := formatInt (wrapInt64 (env.now + env.durationSeconds expireTime))
  let q := urlQuery req.rawQuery
  let q := valuesSet q (str "AWSAccessKeyId") AccessKey
  let q := valuesSet q (str "Expires") exp
  let contentType := headerGet req.header (str "Content-Type")
  let contentMd5 := headerGet req.header (str "Content-Md5")
  let strToSign := req.method ++ str "\n" ++ contentMd5 ++ str "\n" ++ contentType
    ++ str "\n" ++ exp ++ str "\n" ++ req.escapedPath
  let mac := env.hmacSha1 SecretKey strToSign
  let q := valuesSet q (str "Signature") (env.base64 mac)
  { exp := exp, strToSign := strToSign, q := q,
    request := { req with rawQuery := valuesEncode q } }

/-- State of the first loop of `sign`. -/
structure HeaderScan where
  /-- The variable `md5`. -/
  md5 : Str
  /-- The variable `contentType`. -/
  contentType : Str
  /-- The variable `tmpHeadersToSign`. -/
  tmpHeadersToSign : List (Str × List Str)

/-- Body of the loop `for k, v := range req.Header` of `sign` (lines 76-88), with
`strings.ToLower` as the argument `toLower`; `none` is the panic of `v[0]` on an
empty slice. -/
def scanHeader (toLower : Str → Str) (acc : HeaderScan) (kv : Str × List Str) :
    Option HeaderScan :=
  let k := toLower kv.1
  if k = str "content-md5" then
    match kv.2 with
    | v0 :: _ => some { acc with md5 := v0 }
    | [] => none
  else if k = str "content-type" then
    match kv.2 with
    | v0 :: _ => some { acc with contentType := v0 }
    | [] => none
  else if startsWith k (str "x-amz-") then
    some { acc with tmpHeadersToSign := mapSet acc.tmpHeadersToSign k kv.2 }
  else some acc

/-- The loop `for k, v := range req.Header` of `sign`. -/
def scanHeaders (toLower : Str → Str) : Header → HeaderScan → Option HeaderScan
  | [], acc => some acc
  | kv :: rest, acc =>
      match scanHeader toLower acc kv with
      | some acc' => scanHeaders toLower rest acc'
      | none => none

/-- The slice `headersToSign` of `sign` (lines 89-99). -/
def headersToSign (tmpHeadersToSign : List (Str × List Str)) : List Str :=
  (sortStrings (tmpHeadersToSign.map Prod.fst)).map (fun key =>
    key ++ str ":" ++ stringsJoin ((mapGet tmpHeadersToSign key).getD []) (str ","))

/-- The string `joinedHeadersToSign` of `sign` (lines 101-104). -/
def joinedHeadersToSign (headersToSign : List Str) : Str :=
  if headersToSign.length > 0 then stringsJoin headersToSign (str "\n") ++ str "\n"
  else []

/-- The slice `queriesToSign` of `sign` before it is sorted (lines 107-119). -/
def queriesToSign (params : Values) : List Str :=
  params.flatMap (fun kv =>
    if kv.1 ∈ s3ParamsToSign then
      kv.2.map (fun v => if v = [] then kv.1 else kv.1 ++ str "=" ++ v)
    else [])

/-- The variable `uri` of `sign` after the query parameters are added
(lines 121-124). -/
def uriWithQuery (uri : Str) (queriesToSign : List Str) : Str :=
  if queriesToSign.length > 0 then
    uri ++ str "?" ++ stringsJoin (sortStrings queriesToSign) (str "&")
  else uri

/-- The local variables of `sign` when the payload is built, and the request it
leaves behind. -/
structure Signed where
  /-- The variable `date`. -/
  date : Str
  /-- The variable `md5`. -/
  md5 : Str
  /-- The variable `contentType`. -/
  contentType : Str
  /-- The variable `joinedHeadersToSign`. -/
  joinedHeadersToSign : Str
  /-- The variable `uri` before the query parameters are added (line 69). -/
  path : Str
  /-- The variable `uri` in the payload (line 127). -/
  uri : Str
  /-- The variable `payload`. -/
  payload : Str
  /-- The request after the call. -/
  request : Request

/-- The function `sign` (`v2.go`, lines 60-135); `none` when it panics. -/
def sign (env : Env) (AccessKey SecretKey : Str) (req : Request) : Option Signed :=
  let date := env.formatRFC1123 env.now
  let header := headerSet req.header (str "Date") date
  let path := if req.escapedPath = [] then str "/" else req.escapedPath
  match scanHeaders env.toLower header
      { md5 := [], contentType := [], tmpHeadersToSign := [] } with
  | none => none
  | some scan =>
      let joined := joinedHeadersToSign (headersToSign scan.tmpHeadersToSign)
      let params := urlQuery req.rawQuery
      let uri := uriWithQuery path (queriesToSign params)
      let payload := req.method ++ str "\n" ++ scan.md5 ++ str "\n" ++ scan.contentType
        ++ str "\n" ++ date ++ str "\n" ++ joined ++ uri
      let signature := env.base64 (env.hmacSha1 SecretKey payload)
      some
        { date := date, md5 := scan.md5, contentType := scan.contentType,
          joinedHeadersToSign := joined, path := path, uri := uri, payload := payload,
          request :=
            { req with
              header := headerSet header (str "Authorization")
                (str "AWS " ++ AccessKey ++ str ":" ++ signature) } }

/-! ## `s3cli.go` -/

/-- The struct `S3Client`. -/
structure S3Client where
  /-- The credential file. -/
  credential : Str
  /-- The profile in the credential file. -/
  profile : Str
  /-- The server endpoint (URL). -/
  endpoint : Str
  /-- The access key. -/
  accessKey : Str
  /-- The secret key. -/
  secretKey : Str
  /-- The debug flag. -/
  debug : Bool
  /-- The region. -/
  region : Str
  /-- The field `useSSL`. -/
  useSSL : Bool

/-- A call that `presignObjectV2` makes, in the order of the calls. -/
inductive Call where
  /-- The call `url.Parse(rawURL)`. -/
  | urlParse (rawURL : Str)
  /-- The call `Presign2(u, method, accessKey, secretKey, exp)`. -/
  | presign2 (u method accessKey secretKey : Str) (exp : Int)
  deriving DecidableEq

/-- What `presignObjectV2` returns, with the calls it made. -/
structure PresignResult where
  /-- The returned string. -/
  url : Str
  /-- The returned error, `none` for `nil`. -/
  err : Option Str
  /-- The calls made, first to last. -/
  calls : List Call

/-- The method `S3Client.presignObjectV2` (`s3cli.go`, lines 407-424).  The
parser `url.Parse` and the signer `Presign2` (declared outside the two source
files) are parameters; a parsed URL is passed on to `Presign2` as it is. -/
def presignObjectV2 (urlParse : Str → Except Str Str)
    (Presign2 : Str → Str → Str → Str → Int → Str × Option Str)
    (sc : S3Client) (bucket key : Str) (exp : Int) (put : Bool) : PresignResult :=
  if sc.accessKey = [] then
    { url := [], err := some (str "unknow access key"), calls := [] }
  else if sc.secretKey = [] then
    { url := [], err := some (str "unknow secret key"), calls := [] }
  else if sc.endpoint = [] then
    { url := [], err := some (str "unknow endpoint"), calls := [] }
  else
    let rawURL := sc.endpoint ++ str "/" ++ bucket ++ str "/" ++ key
    match urlParse rawURL with
    | .error err => { url := [], err := some err, calls := [.urlParse rawURL] }
    | .ok u =>
        let method := if put then str "PUT" else str "GET"
        let r := Presign2 u method sc.accessKey sc.secretKey exp
        { url := r.1, err := r.2,
          calls := [.urlParse rawURL, .presign2 u method sc.accessKey sc.secretKey exp] }

/-! ## Concrete requests -/

/-- An environment for evaluating the signer on concrete requests: the clock
reads 1700000000 (14 Nov 2023, 22:13:20 UTC); the digest and the encoding are
stand-ins that keep their input visible (key followed by message, identity);
the lower-casing is the ASCII one (the names of the concrete requests are ASCII)
and the durations converted are whole seconds. -/
def exampleEnv : Env :=
  { now := 1700000000
    formatRFC1123 := fun _ => str "Tue, 14 Nov 2023 22:13:20 UTC"
    hmacSha1 := fun key message => key ++ message
    base64 := fun digest => digest
    toLower := asciiToLower
    toLower_ascii := fun _ _ => rfl
    durationSeconds := fun d => Int.tdiv d 1000000000
    durationSeconds_whole := fun seconds => Int.mul_tdiv_cancel seconds (by decide) }

/-- A request with two `x-amz-` headers, a `Host` header and the query
`uploadId=123&randomParam=x`. -/
def exampleRequest : Request :=
  { method := str "GET"
    escapedPath := str "/bucket/key"
    rawQuery := str "uploadId=123&randomParam=x"
    header :=
      [ (str "X-Amz-Meta-Foo", [str "a"]),
        (str "X-Amz-Meta-Bar", [str "b"]),
        (str "Host", [str "example.com"]) ] }

/-- A request that already carries a `Date`, an `Authorization`, a `Content-MD5`
and a `Content-Type` header. -/
def datedRequest : Request :=
  { method := str "PUT"
    escapedPath := str "/bucket/key"
    rawQuery := str "acl"
    header :=
      [ (str "Date", [str "Mon, 02 Jan 2006 15:04:05 UTC"]),
        (str "Authorization", [str "AWS OLD:stale"]),
        (str "Content-Md5", [str "1B2M2Y8AsgTpgAmY7PhCfg=="]),
        (str "Content-Type", [str "text/plain"]),
        (str "X-Amz-Acl", [str "private"]) ] }

/-- A client whose secret key is not set. -/
def clientWithoutSecret : S3Client :=
  { credential := [], profile := [], endpoint := str "http://s3test.myshare.io:9090",
    accessKey := str "AK", secretKey := [], debug := false, region := str "cn-north-1",
    useSSL := false }

/-- A request with a two-valued `x-amz-` header. -/
def multiValueRequest : Request :=
  { method := str "GET"
    escapedPath := str "/bucket/key"
    rawQuery := str "acl&versionId=3&versionId="
    header := [ (str "X-Amz-Meta-Name", [str "a", str "b"]) ] }

/-- A request whose query already has `Expires` (twice) and another parameter. -/
def expiringRequest : Request :=
  { method := str "GET"
    escapedPath := str "/bucket/key"
    rawQuery := str "Expires=1&x=a&Expires=2&x=b"
    header := [ (str "Content-Type", [str "text/plain"]) ] }

/-- A request whose escaped path is the empty string. -/
def rootRequest : Request :=
  { method := str "GET"
    escapedPath := []
    rawQuery := str "location"
    header := [ (str "Host", [str "example.com"]) ] }

/-- A request whose `Content-MD5` header has no value at all. -/
def emptyValueRequest : Request :=
  { method := str "PUT"
    escapedPath := str "/bucket/key"
    rawQuery := []
    header := [ (str "Content-Md5", []) ] }

/-- A lower-casing that folds, besides the ASCII capitals, the capitals of the
Latin-1 supplement in UTF-8 (`À` to `Þ`, the bytes `C3 80` to `C3 9E` but `C3 97`),
as `strings.ToLower` does; `prev` tells that the byte before was `C3`. -/
def latin1ToLower : Bool → Str → Str
  | _, [] => []
  | prev, c :: rest =>
      (if prev = true ∧ 128 ≤ c ∧ c ≤ 158 ∧ c ≠ 151 then c + 32 else lowerByte c)
        :: latin1ToLower (decide (c = 195)) rest

/-- The environment `exampleEnv` with a lower-casing that knows the Latin-1
capitals, for evaluating the signer on a header name that is not ASCII. -/
def latin1Env : Env :=
  { exampleEnv with
    toLower := latin1ToLower false
    toLower_ascii := by
      intro s hs
      generalize false = prev
      induction s generalizing prev with
      | nil => rfl
      | cons c rest ih =>
        have hc : c < 128 := hs c (List.mem_cons_self _ _)
        have hcond : ¬ (prev = true ∧ 128 ≤ c ∧ c ≤ 158 ∧ c ≠ 151) :=
          fun h => absurd h.2.1 (not_le.2 hc)
        simp only [latin1ToLower, if_neg hcond, asciiToLower, List.map_cons]
        rw [ih (fun x hx => hs x (List.mem_cons_of_mem _ hx))]
        rfl }

/-- A request with the header `X-Amz-Meta-É` (`É` is the bytes `C3 89`). -/
def accentedRequest : Request :=
  { method := str "GET"
    escapedPath := str "/bucket/key"
    rawQuery := []
    header := [ (str "X-Amz-Meta-" ++ [195, 137], [str "a", str "b"]) ] }

/-! ## Well-formed header mappings -/

/-- Header names are case-insensitive: no two entries of the mapping have names
that agree after lower-casing by `toLower`. -/
def Header.CaseInsensitive (toLower : Str → Str) (h : Header) : Prop :=
  (h.map (fun kv => toLower kv.1)).Nodup

/-- Every header name that is present has one or more values. -/
def Header.NonemptyValues (h : Header) : Prop :=
  ∀ kv ∈ h, kv.2 ≠ []

instance (toLower : Str → Str) (h : Header) :
    Decidable (Header.CaseInsensitive toLower h) := by
  unfold Header.CaseInsensitive; infer_instance

instance (h : Header) : Decidable (Header.NonemptyValues h) := by
  unfold Header.NonemptyValues; infer_instance

/-- The header is one of those that `sign` puts in the signature: its lower-cased
name starts with `x-amz-`. -/
def isAmzHeader (toLower : Str → Str) (kv : Str × List Str) : Bool :=
  startsWith (toLower kv.1) (str "x-amz-")

/-- The line of the canonical string for a header: the lower-cased name, a colon,
the values joined by commas. -/
def headerLine (toLower : Str → Str) (kv : Str × List Str) : Str :=
  toLower kv.1 ++ str ":" ++ stringsJoin kv.2 (str ",")

/-- The rearrangement of the `x-amz-` headers of a mapping in ascending order of
the lower-cased name. -/
def sortedAmzHeaders (toLower : Str → Str) (hdr : Header) : Header :=
  (hdr.filter (isAmzHeader toLower)).insertionSort
    (fun a b => strLe (toLower a.1) (toLower b.1) = true)

/-! ## String order and sorting -/

theorem strLe_refl (a : Str) : strLe a a = true := by
  induction a with
  | nil => rfl
  | cons x s ih => simp [strLe, ih]

theorem strLe_total (a b : Str) : strLe a b = true ∨ strLe b a = true := by
  induction a generalizing b with
  | nil => left; rfl
  | cons x s ih =>
    cases b with
    | nil => right; rfl
    | cons y t =>
      rcases lt_trichotomy x y with h | h | h
      · left; simp [strLe, h]
      · subst h; simpa [strLe] using ih t
      · right; simp [strLe, h]

theorem strLe_trans {a b c : Str} (hab : strLe a b = true) (hbc : strLe b c = true) :
    strLe a c = true := by
  induction a generalizing b c with
  | nil => rfl
  | cons x s ih =>
    cases b with
    | nil => simp [strLe] at hab
    | cons y t =>
      cases c with
      | nil => simp [strLe] at hbc
      | cons z u =>
        simp only [strLe] at hab hbc ⊢
        split_ifs at hab hbc ⊢ <;>
          first
          | rfl
          | exact ih hab hbc
          | (exfalso; simp only [Fin.lt_def, not_lt] at *; omega)

theorem strLe_antisymm {a b : Str} (hab : strLe a b = true) (hba : strLe b a = true) :
    a = b := by
  induction a generalizing b with
  | nil =>
    cases b with
    | nil => rfl
    | cons y t => simp [strLe] at hba
  | cons x s ih =>
    cases b with
    | nil => simp [strLe] at hab
    | cons y t =>
      simp only [strLe] at hab hba
      by_cases h₁ : x < y
      · have h₂ : ¬ y < x := lt_asymm h₁
        simp [h₁, h₂] at hba
      · by_cases h₂ : y < x
        · simp [h₁, h₂] at hab
        · simp only [h₁, h₂, if_false] at hab hba
          rw [le_antisymm (not_lt.1 h₂) (not_lt.1 h₁), ih hab hba]

instance strLe_isTotal : IsTotal Str (fun a b => strLe a b = true) := ⟨strLe_total⟩

instance strLe_isTrans : IsTrans Str (fun a b => strLe a b = true) :=
  ⟨fun _ _ _ h₁ h₂ => strLe_trans h₁ h₂⟩

instance strLe_isAntisymm : IsAntisymm Str (fun a b => strLe a b = true) :=
  ⟨fun _ _ h₁ h₂ => strLe_antisymm h₁ h₂⟩

theorem sortStrings_perm (l : List Str) : (sortStrings l).Perm l :=
  List.perm_insertionSort _ l

theorem sortStrings_sorted (l : List Str) :
    (sortStrings l).Pairwise (fun a b => strLe a b = true) :=
  List.sorted_insertionSort _ l

/-- A list of strings has one ascending rearrangement only: whatever algorithm
`sort.Strings` runs, and in whatever order a map was visited to fill the slice,
the sorted slice is `sortStrings`. -/
theorem sortStrings_unique {l l' : List Str} (hp : l'.Perm l)
    (hs : l'.Pairwise (fun a b => strLe a b = true)) : l' = sortStrings l :=
  List.eq_of_perm_of_sorted (hp.trans (sortStrings_perm l).symm) hs (sortStrings_sorted l)

theorem sortStrings_congr {l l' : List Str} (hp : l.Perm l') :
    sortStrings l = sortStrings l' :=
  sortStrings_unique ((sortStrings_perm l).trans hp) (sortStrings_sorted l)

/-! ## Maps as association lists -/

theorem mapSet_of_not_mem {α : Type} (m : List (Str × α)) (k : Str) (v : α)
    (h : k ∉ m.map Prod.fst) : mapSet m k v = m ++ [(k, v)] := by
  induction m with
  | nil => rfl
  | cons e rest ih =>
    obtain ⟨k', v'⟩ := e
    simp only [List.map_cons, List.mem_cons, not_or] at h
    have hne : ¬ k' = k := fun hk => h.1 hk.symm
    simp [mapSet, hne, ih h.2]

theorem mapGet_mapSet_self {α : Type} (m : List (Str × α)) (k : Str) (v : α) :
    mapGet (mapSet m k v) k = some v := by
  induction m with
  | nil => simp [mapSet, mapGet]
  | cons e rest ih =>
    obtain ⟨k', v'⟩ := e
    by_cases hk : k' = k
    · simp [mapSet, mapGet, hk]
    · simp [mapSet, mapGet, hk, ih]

theorem mapGet_mapSet_of_ne {α : Type} (m : List (Str × α)) {k k' : Str} (v : α)
    (h : k' ≠ k) : mapGet (mapSet m k v) k' = mapGet m k' := by
  induction m with
  | nil => simp [mapSet, mapGet, h.symm]
  | cons e rest ih =>
    obtain ⟨k₀, v₀⟩ := e
    by_cases hk : k₀ = k
    · subst hk
      simp [mapSet, mapGet, h.symm]
    · by_cases hk' : k₀ = k'
      · subst hk'
        simp [mapSet, mapGet, hk]
      · simp [mapSet, mapGet, hk, hk', ih]

theorem mapGet_of_mem {α : Type} {m : List (Str × α)} (hnd : (m.map Prod.fst).Nodup)
    {k : Str} {v : α} (h : (k, v) ∈ m) : mapGet m k = some v := by
  induction m with
  | nil => simp at h
  | cons e rest ih =>
    obtain ⟨k', v'⟩ := e
    simp only [List.map_cons, List.nodup_cons, List.mem_map, not_exists, not_and] at hnd
    rcases List.mem_cons.1 h with heq | hmem
    · cases heq
      simp [mapGet]
    · have hne : ¬ k' = k := fun hk => hnd.1 (k, v) hmem hk.symm
      simp [mapGet, hne, ih hnd.2 hmem]

theorem mem_of_mapGet {α : Type} {m : List (Str × α)} {k : Str} {v : α}
    (h : mapGet m k = some v) : (k, v) ∈ m := by
  induction m with
  | nil => simp [mapGet] at h
  | cons e rest ih =>
    obtain ⟨k', v'⟩ := e
    by_cases hk : k' = k
    · simp [mapGet, hk] at h
      simp [hk, h]
    · simp [mapGet, hk] at h
      exact List.mem_cons_of_mem _ (ih h)

theorem filter_mapSet {α : Type} (P : Str × α → Bool) (m : List (Str × α)) (k : Str)
    (v : α) (hP : ∀ v', P (k, v') = false) : (mapSet m k v).filter P = m.filter P := by
  induction m with
  | nil => simp [mapSet, hP]
  | cons e rest ih =>
    obtain ⟨k', v'⟩ := e
    by_cases hk : k' = k
    · subst hk
      simp [mapSet, List.filter_cons, hP]
    · simp [mapSet, hk, List.filter_cons, ih]

theorem mem_mapSet {α : Type} {m : List (Str × α)} {k : Str} {v : α} {e : Str × α}
    (h : e ∈ mapSet m k v) : e = (k, v) ∨ e ∈ m := by
  induction m with
  | nil => simpa [mapSet] using h
  | cons e' rest ih =>
    obtain ⟨k', v'⟩ := e'
    by_cases hk : k' = k
    · simp only [mapSet, hk, if_true, List.mem_cons] at h
      rcases h with h | h
      · exact Or.inl h
      · exact Or.inr (List.mem_cons_of_mem _ h)
    · simp only [mapSet, hk, if_false, List.mem_cons] at h
      rcases h with h | h
      · exact Or.inr (h ▸ List.mem_cons_self _ _)
      · rcases ih h with h' | h'
        · exact Or.inl h'
        · exact Or.inr (List.mem_cons_of_mem _ h')

/-! ## The header loop of `sign` -/

theorem scanHeader_isSome (lower : Str → Str) (acc : HeaderScan) (kv : Str × List Str)
    (h : kv.2 ≠ []) :
    ∃ s, scanHeader lower acc kv = some s := by
  obtain ⟨k, vs⟩ := kv
  cases vs with
  | nil => exact absurd rfl h
  | cons v0 rest =>
    simp only [scanHeader]
    split_ifs <;> exact ⟨_, rfl⟩

theorem scanHeaders_isSome (lower : Str → Str) (hdr : Header) (acc : HeaderScan)
    (hne : Header.NonemptyValues hdr) : ∃ s, scanHeaders lower hdr acc = some s := by
  induction hdr generalizing acc with
  | nil => exact ⟨acc, rfl⟩
  | cons kv rest ih =>
    obtain ⟨acc', hacc⟩ := scanHeader_isSome lower acc kv (hne kv (List.mem_cons_self _ _))
    obtain ⟨s, hs⟩ := ih acc' (fun e he => hne e (List.mem_cons_of_mem _ he))
    exact ⟨s, by simp [scanHeaders, hacc, hs]⟩

theorem scanHeader_tmp {lower : Str → Str} {acc acc' : HeaderScan} {kv : Str × List Str}
    (h : scanHeader lower acc kv = some acc') :
    acc'.tmpHeadersToSign =
      if isAmzHeader lower kv then mapSet acc.tmpHeadersToSign (lower kv.1) kv.2
      else acc.tmpHeadersToSign := by
  obtain ⟨k, vs⟩ := kv
  simp only [scanHeader] at h
  by_cases h1 : lower k = str "content-md5"
  · have hamz : isAmzHeader lower (k, vs) = false := by
      simp only [isAmzHeader, h1]; decide
    rw [if_pos h1] at h
    cases vs with
    | nil => simp at h
    | cons v0 rest =>
      simp only [Option.some.injEq] at h
      subst h
      simp [hamz]
  · rw [if_neg h1] at h
    by_cases h2 : lower k = str "content-type"
    · have hamz : isAmzHeader lower (k, vs) = false := by
        simp only [isAmzHeader, h2]; decide
      rw [if_pos h2] at h
      cases vs with
      | nil => simp at h
      | cons v0 rest =>
        simp only [Option.some.injEq] at h
        subst h
        simp [hamz]
    · rw [if_neg h2] at h
      by_cases h3 : startsWith (lower k) (str "x-amz-") = true
      · rw [if_pos h3] at h
        simp only [Option.some.injEq] at h
        subst h
        simp [isAmzHeader, h3]
      · rw [if_neg h3] at h
        simp only [Option.some.injEq] at h
        subst h
        simp [isAmzHeader, h3]

/-- With case-insensitive names, the loop leaves in `tmpHeadersToSign` the
`x-amz-` headers of the mapping, each under its lower-cased name. -/
theorem scanHeaders_tmp {lower : Str → Str} (hdr : Header) (acc s : HeaderScan)
    (h : scanHeaders lower hdr acc = some s)
    (hnd : (acc.tmpHeadersToSign.map Prod.fst ++
      (hdr.filter (isAmzHeader lower)).map (fun kv => lower kv.1)).Nodup) :
    s.tmpHeadersToSign =
      acc.tmpHeadersToSign
        ++ (hdr.filter (isAmzHeader lower)).map (fun kv => (lower kv.1, kv.2)) := by
  induction hdr generalizing acc with
  | nil =>
    simp only [scanHeaders, Option.some.injEq] at h
    subst h
    simp
  | cons kv rest ih =>
    simp only [scanHeaders] at h
    cases hacc : scanHeader lower acc kv with
    | none => simp [hacc] at h
    | some acc' =>
      simp only [hacc] at h
      have htmp := scanHeader_tmp hacc
      by_cases hamz : isAmzHeader lower kv = true
      · simp only [hamz, if_true] at htmp
        simp only [List.filter_cons, hamz, if_true, List.map_cons] at hnd ⊢
        have hnot : lower kv.1 ∉ acc.tmpHeadersToSign.map Prod.fst := by
          intro hmem
          have := (List.nodup_append.1 hnd).2.2
          exact this hmem (List.mem_cons_self _ _)
        rw [mapSet_of_not_mem _ _ _ hnot] at htmp
        have hnd' : (acc'.tmpHeadersToSign.map Prod.fst ++
            (rest.filter (isAmzHeader lower)).map (fun kv => lower kv.1)).Nodup := by
          rw [htmp]
          simpa [List.append_assoc] using hnd
        rw [ih acc' h hnd', htmp]
        simp
      · simp only [hamz, Bool.false_eq_true, if_false] at htmp
        simp only [List.filter_cons, hamz, Bool.false_eq_true, if_false] at hnd ⊢
        rw [ih acc' h (by rw [htmp]; exact hnd), htmp]

/-! ## The header lines of the canonical string -/

theorem strLt_of_le_of_ne {a b : Str} (hle : strLe a b = true) (hne : a ≠ b) :
    strLt a b = true := by
  have hba : strLe b a ≠ true := fun hba => hne (strLe_antisymm hle hba)
  simp [strLt, hle, hba]

theorem joinedHeadersToSign_eq (lines : List Str) :
    joinedHeadersToSign lines = lines.flatMap (fun l => l ++ str "\n") := by
  have key : ∀ (a : Str) (rest : List Str),
      stringsJoin (a :: rest) (str "\n") ++ str "\n"
        = (a :: rest).flatMap (fun l => l ++ str "\n") := by
    intro a rest
    induction rest generalizing a with
    | nil => simp [stringsJoin]
    | cons b rest ih =>
      have := ih b
      simp only [stringsJoin, List.flatMap_cons, List.append_assoc] at this ⊢
      rw [this]
  cases lines with
  | nil => rfl
  | cons a rest => simpa [joinedHeadersToSign] using key a rest

theorem headersToSign_eq {lower : Str → Str} (l : Header)
    (hnd : (l.map (fun kv => lower kv.1)).Nodup) :
    headersToSign (l.map (fun kv => (lower kv.1, kv.2)))
      = (l.insertionSort
          (fun a b => strLe (lower a.1) (lower b.1) = true)).map (headerLine lower) := by
  have hkeys : (l.map (fun kv => (lower kv.1, kv.2))).map Prod.fst
      = l.map (fun kv => lower kv.1) := by
    simp [List.map_map, Function.comp_def]
  have hsort : sortStrings (l.map (fun kv => lower kv.1))
      = (l.insertionSort
          (fun a b => strLe (lower a.1) (lower b.1) = true)).map
            (fun kv => lower kv.1) := by
    unfold sortStrings
    exact (List.map_insertionSort _ _ (fun kv : Str × List Str => lower kv.1) l
      (fun _ _ _ _ => Iff.rfl)).symm
  unfold headersToSign
  rw [hkeys, hsort, List.map_map]
  apply List.map_congr_left
  intro kv hkv
  have hmem : kv ∈ l := (List.mem_insertionSort _).1 hkv
  have hget : mapGet (l.map (fun kv => (lower kv.1, kv.2))) (lower kv.1) = some kv.2 := by
    apply mapGet_of_mem
    · rw [hkeys]; exact hnd
    · exact List.mem_map.2 ⟨kv, hmem, rfl⟩
  simp [hget, headerLine]

/-- The lower-casing of the header name `Date`. -/
theorem Env.toLower_date (env : Env) : env.toLower (str "Date") = str "date" := by
  have hascii : ∀ c ∈ str "Date", c < 128 := by
    have h : (str "Date").all (fun c => decide (c < 128)) = true := by decide
    simpa using h
  rw [env.toLower_ascii _ hascii]
  rfl

theorem not_isAmzHeader_date {lower : Str → Str} (hdate : lower (str "Date") = str "date")
    (vs : List Str) : isAmzHeader lower (str "Date", vs) = false := by
  have h : startsWith (lower (str "Date")) (str "x-amz-") = false := by
    rw [hdate]; decide
  simpa [isAmzHeader] using h

/-- What `sign` returns when the loop over the headers does not panic. -/
theorem sign_of_scan (env : Env) (AccessKey SecretKey : Str) (req : Request)
    (scan : HeaderScan)
    (hscan : scanHeaders env.toLower (headerSet req.header (str "Date") (env.formatRFC1123 env.now))
      { md5 := [], contentType := [], tmpHeadersToSign := [] } = some scan) :
    sign env AccessKey SecretKey req = some
      { date := env.formatRFC1123 env.now
        md5 := scan.md5
        contentType := scan.contentType
        joinedHeadersToSign := joinedHeadersToSign (headersToSign scan.tmpHeadersToSign)
        path := if req.escapedPath = [] then str "/" else req.escapedPath
        uri := uriWithQuery (if req.escapedPath = [] then str "/" else req.escapedPath)
          (queriesToSign (urlQuery req.rawQuery))
        payload := req.method ++ str "\n" ++ scan.md5 ++ str "\n" ++ scan.contentType
          ++ str "\n" ++ env.formatRFC1123 env.now ++ str "\n"
          ++ joinedHeadersToSign (headersToSign scan.tmpHeadersToSign)
          ++ uriWithQuery (if req.escapedPath = [] then str "/" else req.escapedPath)
              (queriesToSign (urlQuery req.rawQuery))
        request :=
          { req with
            header := headerSet (headerSet req.header (str "Date") (env.formatRFC1123 env.now))
              (str "Authorization")
              (str "AWS " ++ AccessKey ++ str ":" ++ env.base64 (env.hmacSha1 SecretKey
                (req.method ++ str "\n" ++ scan.md5 ++ str "\n" ++ scan.contentType
                  ++ str "\n" ++ env.formatRFC1123 env.now ++ str "\n"
                  ++ joinedHeadersToSign (headersToSign scan.tmpHeadersToSign)
                  ++ uriWithQuery (if req.escapedPath = [] then str "/" else req.escapedPath)
                      (queriesToSign (urlQuery req.rawQuery))))) } } := by
  simp only [sign, hscan]

/-- With one or more values under every header name, the loop of `sign` over the
headers (after `Date` has been set) runs to its end. -/
theorem sign_scan_isSome (env : Env) (req : Request)
    (hne : Header.NonemptyValues req.header) :
    ∃ scan, scanHeaders env.toLower
      (headerSet req.header (str "Date") (env.formatRFC1123 env.now))
      { md5 := [], contentType := [], tmpHeadersToSign := [] } = some scan := by
  apply scanHeaders_isSome
  intro kv hkv
  rcases mem_mapSet hkv with h | h
  · rw [h]; simp
  · exact hne kv h

/-- The header-lines block that the loop of `sign` leads to, for a request with
case-insensitive header names. -/
theorem sign_scan_block {lower : Str → Str} (hdate : lower (str "Date") = str "date")
    (date : Str) (hdr : Header) (hci : Header.CaseInsensitive lower hdr)
    (scan : HeaderScan)
    (hscan : scanHeaders lower (headerSet hdr (str "Date") date)
      { md5 := [], contentType := [], tmpHeadersToSign := [] } = some scan) :
    joinedHeadersToSign (headersToSign scan.tmpHeadersToSign)
      = (sortedAmzHeaders lower hdr).flatMap (fun kv =>
          lower kv.1 ++ str ":" ++ stringsJoin kv.2 (str ",") ++ str "\n") := by
  have hfilter : (headerSet hdr (str "Date") date).filter (isAmzHeader lower)
      = hdr.filter (isAmzHeader lower) :=
    filter_mapSet (isAmzHeader lower) _ _ _ (not_isAmzHeader_date hdate)
  have hnd : ((hdr.filter (isAmzHeader lower)).map (fun kv => lower kv.1)).Nodup :=
    (List.Nodup.sublist ((List.filter_sublist _).map _) hci)
  have htmp := scanHeaders_tmp _ _ scan hscan (by simpa [hfilter] using hnd)
  rw [hfilter] at htmp
  simp only [List.nil_append] at htmp
  rw [htmp, headersToSign_eq _ hnd, joinedHeadersToSign_eq, List.flatMap_map]
  rfl

theorem sortedAmzHeaders_perm {lower : Str → Str} (hdr : Header) :
    (sortedAmzHeaders lower hdr).Perm (hdr.filter (isAmzHeader lower)) :=
  List.perm_insertionSort _ _

theorem sortedAmzHeaders_pairwise {lower : Str → Str} (hdr : Header)
    (hci : Header.CaseInsensitive lower hdr) :
    (sortedAmzHeaders lower hdr).Pairwise
      (fun a b => strLt (lower a.1) (lower b.1) = true) := by
  have hnd : ((hdr.filter (isAmzHeader lower)).map (fun kv => lower kv.1)).Nodup :=
    (List.Nodup.sublist ((List.filter_sublist _).map _) hci)
  have hsorted : (sortedAmzHeaders lower hdr).Pairwise
      (fun a b => strLe (lower a.1) (lower b.1) = true) := by
    have h := sortStrings_sorted ((hdr.filter (isAmzHeader lower)).map (fun kv => lower kv.1))
    unfold sortStrings at h
    rw [← List.map_insertionSort (fun a b : Str × List Str =>
      strLe (lower a.1) (lower b.1) = true) _ (fun kv : Str × List Str => lower kv.1) _
      (fun _ _ _ _ => Iff.rfl)] at h
    exact List.pairwise_map.1 h
  have hnd' : (sortedAmzHeaders lower hdr).Pairwise (fun a b => lower a.1 ≠ lower b.1) :=
    List.pairwise_map.1 (((sortedAmzHeaders_perm hdr).map _).nodup_iff.2 hnd)
  exact (hsorted.and hnd').imp (fun h => strLt_of_le_of_ne h.1 h.2)

/-- C1. For a request of the data model (header names case-insensitive, one or
more values each), `sign` returns, and the header-lines block it puts in the
payload is made of the headers whose lower-cased name starts with `x-amz-` and of
no other header, in strictly ascending order of the lower-cased name, each as the
line `lowercasedName:value` followed by a newline; with no such header the block
is empty. -/
theorem sign_header_lines_block (env : Env) (AccessKey SecretKey : Str) (req : Request)
    (hci : Header.CaseInsensitive env.toLower req.header)
    (hne : Header.NonemptyValues req.header) :
    ∃ (s : Signed) (sel : Header), sign env AccessKey SecretKey req = some s
      ∧ sel.Perm (req.header.filter
          (fun kv => startsWith (env.toLower kv.1) (str "x-amz-")))
      ∧ sel.Pairwise (fun a b => strLt (env.toLower a.1) (env.toLower b.1) = true)
      ∧ s.joinedHeadersToSign = sel.flatMap (fun kv =>
          env.toLower kv.1 ++ str ":" ++ stringsJoin kv.2 (str ",") ++ str "\n")
      ∧ s.payload = req.method ++ str "\n" ++ s.md5 ++ str "\n" ++ s.contentType
          ++ str "\n" ++ s.date ++ str "\n" ++ s.joinedHeadersToSign ++ s.uri
      ∧ (∀ kv ∈ sel, env.toLower kv.1 ∉ [str "host", str "authorization", str "date",
          str "content-type", str "content-md5"])
      ∧ ((∀ kv ∈ req.header, startsWith (env.toLower kv.1) (str "x-amz-") = false) →
          s.joinedHeadersToSign = []) := by
  obtain ⟨scan, hscan⟩ := sign_scan_isSome env req hne
  have hblock := sign_scan_block env.toLower_date _ req.header hci scan hscan
  refine ⟨_, sortedAmzHeaders env.toLower req.header,
    sign_of_scan env AccessKey SecretKey req scan hscan,
    sortedAmzHeaders_perm _, sortedAmzHeaders_pairwise _ hci, hblock, rfl, ?_, ?_⟩
  · intro kv hkv hname
    have hamz : startsWith (env.toLower kv.1) (str "x-amz-") = true := by
      have := (List.mem_filter.1 ((sortedAmzHeaders_perm req.header).mem_iff.1 hkv)).2
      simpa [isAmzHeader] using this
    have hnot : ∀ n ∈ [str "host", str "authorization", str "date",
        str "content-type", str "content-md5"], startsWith n (str "x-amz-") = false := by
      decide
    rw [hnot _ hname] at hamz
    exact Bool.false_ne_true hamz
  · intro hnone
    show joinedHeadersToSign (headersToSign scan.tmpHeadersToSign) = []
    have hempty : req.header.filter (isAmzHeader env.toLower) = [] :=
      List.filter_eq_nil_iff.2 (fun kv hkv => by simpa [isAmzHeader] using hnone kv hkv)
    rw [hblock, sortedAmzHeaders, hempty]
    rfl

/-- Witness of C1: the request with headers `X-Amz-Meta-Foo: a`, `X-Amz-Meta-Bar: b`
and `Host: example.com` is well formed, and its block is
`x-amz-meta-bar:b` then `x-amz-meta-foo:a`. -/
theorem sign_header_lines_block_witness :
    Header.CaseInsensitive exampleEnv.toLower exampleRequest.header
      ∧ Header.NonemptyValues exampleRequest.header
      ∧ (∃ (s : Signed) (sel : Header),
          sign exampleEnv (str "AK") (str "SK") exampleRequest = some s
          ∧ sel.Perm (exampleRequest.header.filter
              (fun kv => startsWith (exampleEnv.toLower kv.1) (str "x-amz-")))
          ∧ sel.Pairwise (fun a b => strLt (exampleEnv.toLower a.1) (exampleEnv.toLower b.1) = true)
          ∧ s.joinedHeadersToSign = sel.flatMap (fun kv =>
              exampleEnv.toLower kv.1 ++ str ":" ++ stringsJoin kv.2 (str ",") ++ str "\n")
          ∧ s.payload = exampleRequest.method ++ str "\n" ++ s.md5 ++ str "\n"
              ++ s.contentType ++ str "\n" ++ s.date ++ str "\n"
              ++ s.joinedHeadersToSign ++ s.uri
          ∧ (∀ kv ∈ sel, exampleEnv.toLower kv.1 ∉ [str "host", str "authorization", str "date",
              str "content-type", str "content-md5"])
          ∧ ((∀ kv ∈ exampleRequest.header,
                startsWith (exampleEnv.toLower kv.1) (str "x-amz-") = false) →
              s.joinedHeadersToSign = []))
      ∧ (sign exampleEnv (str "AK") (str "SK") exampleRequest).map
          (fun s => s.joinedHeadersToSign)
          = some (str "x-amz-meta-bar:b\nx-amz-meta-foo:a\n") :=
  ⟨by decide, by decide,
    sign_header_lines_block exampleEnv (str "AK") (str "SK") exampleRequest
      (by decide) (by decide),
    by decide⟩

/-! ## The query parameters of the canonical string -/

theorem parseQueryStep_values_ne_nil (m : Values) (seg : Str)
    (hm : ∀ kv ∈ m, kv.2 ≠ []) : ∀ kv ∈ parseQueryStep m seg, kv.2 ≠ [] := by
  unfold parseQueryStep
  split_ifs
  · exact hm
  · exact hm
  · split
    · intro kv hkv
      rcases mem_mapSet hkv with h | h
      · rw [h]; simp
      · exact hm kv h
    · exact hm

theorem foldl_parseQueryStep_values_ne_nil (segs : List Str) (m : Values)
    (hm : ∀ kv ∈ m, kv.2 ≠ []) : ∀ kv ∈ segs.foldl parseQueryStep m, kv.2 ≠ [] := by
  induction segs generalizing m with
  | nil => exact hm
  | cons seg rest ih => exact ih _ (parseQueryStep_values_ne_nil m seg hm)

/-- A parameter of a parsed query has one or more values. -/
theorem urlQuery_values_ne_nil (rawQuery : Str) :
    ∀ kv ∈ urlQuery rawQuery, kv.2 ≠ [] :=
  foldl_parseQueryStep_values_ne_nil _ [] (by simp)

theorem queriesToSign_eq_filter (params : Values) :
    queriesToSign params
      = (params.filter (fun kv => decide (kv.1 ∈ s3ParamsToSign))).flatMap (fun kv =>
          kv.2.map (fun v => if v = [] then kv.1 else kv.1 ++ str "=" ++ v)) := by
  induction params with
  | nil => rfl
  | cons kv rest ih =>
    unfold queriesToSign at ih ⊢
    by_cases h : kv.1 ∈ s3ParamsToSign
    · simp only [List.flatMap_cons, List.filter_cons, h, decide_True, if_true, ih]
    · simp only [List.flatMap_cons, List.filter_cons, h, decide_False, if_false, ih,
        Bool.false_eq_true, List.nil_append]

theorem queriesToSign_ne_nil {params : Values} (hne : ∀ kv ∈ params, kv.2 ≠ [])
    {kv : Str × List Str} (hkv : kv ∈ params) (hallow : kv.1 ∈ s3ParamsToSign) :
    queriesToSign params ≠ [] := by
  obtain ⟨k, vs⟩ := kv
  cases vs with
  | nil => exact absurd rfl (hne _ hkv)
  | cons v rest =>
    intro hnil
    have hmem : (if v = [] then k else k ++ str "=" ++ v) ∈ queriesToSign params := by
      unfold queriesToSign
      refine List.mem_flatMap.2 ⟨(k, v :: rest), hkv, ?_⟩
      simp only [hallow, if_true]
      exact List.mem_map.2 ⟨v, List.mem_cons_self _ _, rfl⟩
    rw [hnil] at hmem
    simp at hmem

theorem queriesToSign_eq_nil {params : Values}
    (hnone : ∀ kv ∈ params, kv.1 ∉ s3ParamsToSign) : queriesToSign params = [] := by
  rw [queriesToSign_eq_filter, List.filter_eq_nil_iff.2 (fun kv hkv => by simpa using hnone kv hkv)]
  rfl

/-- C2. For a request whose headers have one or more values each, `sign` returns
and the resource string, which is the last piece of the payload, is the path
component followed, when an allow-listed query parameter is present, by `?` and
the `&`-join of the ascending tokens of exactly the parameters whose name is in
the allow-list of 19 names; otherwise nothing is appended. -/
theorem sign_resource_string (env : Env) (AccessKey SecretKey : Str) (req : Request)
    (hne : Header.NonemptyValues req.header) :
    ∃ (s : Signed) (toks : List Str), sign env AccessKey SecretKey req = some s
      ∧ toks.Perm
          (((urlQuery req.rawQuery).filter (fun kv => decide (kv.1 ∈ s3ParamsToSign))).flatMap
            (fun kv => kv.2.map (fun v => if v = [] then kv.1 else kv.1 ++ str "=" ++ v)))
      ∧ toks.Pairwise (fun a b => strLe a b = true)
      ∧ ((∃ kv ∈ urlQuery req.rawQuery, kv.1 ∈ s3ParamsToSign) →
          s.uri = s.path ++ str "?" ++ stringsJoin toks (str "&"))
      ∧ ((∀ kv ∈ urlQuery req.rawQuery, kv.1 ∉ s3ParamsToSign) → s.uri = s.path)
      ∧ s.payload = req.method ++ str "\n" ++ s.md5 ++ str "\n" ++ s.contentType
          ++ str "\n" ++ s.date ++ str "\n" ++ s.joinedHeadersToSign ++ s.uri
      ∧ s3ParamsToSign.length = 19 := by
  obtain ⟨scan, hscan⟩ := sign_scan_isSome env req hne
  refine ⟨_, sortStrings (queriesToSign (urlQuery req.rawQuery)),
    sign_of_scan env AccessKey SecretKey req scan hscan, ?_, sortStrings_sorted _, ?_, ?_,
    rfl, rfl⟩
  · rw [← queriesToSign_eq_filter]
    exact sortStrings_perm _
  · rintro ⟨kv, hkv, hallow⟩
    have hnn := queriesToSign_ne_nil (urlQuery_values_ne_nil req.rawQuery) hkv hallow
    have hlen : (queriesToSign (urlQuery req.rawQuery)).length > 0 :=
      List.length_pos.2 hnn
    simp only [uriWithQuery, hlen, if_true]
  · intro hnone
    simp [uriWithQuery, queriesToSign_eq_nil hnone]

/-- Witness of C2: the query `uploadId=123&randomParam=x` signs `uploadId=123`
only. -/
theorem sign_resource_string_witness :
    Header.NonemptyValues exampleRequest.header
      ∧ (∃ (s : Signed) (toks : List Str),
          sign exampleEnv (str "AK") (str "SK") exampleRequest = some s
          ∧ toks.Perm
              (((urlQuery exampleRequest.rawQuery).filter
                  (fun kv => decide (kv.1 ∈ s3ParamsToSign))).flatMap
                (fun kv => kv.2.map (fun v =>
                  if v = [] then kv.1 else kv.1 ++ str "=" ++ v)))
          ∧ toks.Pairwise (fun a b => strLe a b = true)
          ∧ ((∃ kv ∈ urlQuery exampleRequest.rawQuery, kv.1 ∈ s3ParamsToSign) →
              s.uri = s.path ++ str "?" ++ stringsJoin toks (str "&"))
          ∧ ((∀ kv ∈ urlQuery exampleRequest.rawQuery, kv.1 ∉ s3ParamsToSign) →
              s.uri = s.path)
          ∧ s.payload = exampleRequest.method ++ str "\n" ++ s.md5 ++ str "\n"
              ++ s.contentType ++ str "\n" ++ s.date ++ str "\n"
              ++ s.joinedHeadersToSign ++ s.uri
          ∧ s3ParamsToSign.length = 19)
      ∧ (sign exampleEnv (str "AK") (str "SK") exampleRequest).map (fun s => s.uri)
          = some (str "/bucket/key?uploadId=123") :=
  ⟨by decide,
    sign_resource_string exampleEnv (str "AK") (str "SK") exampleRequest (by decide),
    by decide⟩

/-! ## The payload of `sign` -/

theorem scanHeader_md5 {lower : Str → Str} {acc acc' : HeaderScan} {kv : Str × List Str}
    (h : scanHeader lower acc kv = some acc') :
    acc'.md5 = if lower kv.1 = str "content-md5" then kv.2.headD [] else acc.md5 := by
  obtain ⟨k, vs⟩ := kv
  simp only [scanHeader] at h
  by_cases h1 : lower k = str "content-md5"
  · rw [if_pos h1] at h
    cases vs with
    | nil => simp at h
    | cons v0 rest =>
      simp only [Option.some.injEq] at h
      subst h
      simp [h1]
  · rw [if_neg h1] at h
    simp only [h1, if_false]
    split_ifs at h
    · cases vs with
      | nil => simp at h
      | cons v0 rest =>
        simp only [Option.some.injEq] at h
        subst h
        rfl
    · simp only [Option.some.injEq] at h
      subst h
      rfl
    · simp only [Option.some.injEq] at h
      subst h
      rfl

theorem scanHeader_contentType {lower : Str → Str} {acc acc' : HeaderScan} {kv : Str × List Str}
    (h : scanHeader lower acc kv = some acc') :
    acc'.contentType
      = if lower kv.1 = str "content-type" then kv.2.headD [] else acc.contentType := by
  obtain ⟨k, vs⟩ := kv
  simp only [scanHeader] at h
  by_cases h1 : lower k = str "content-md5"
  · have h2 : ¬ lower k = str "content-type" := by
      rw [h1]; decide
    rw [if_pos h1] at h
    simp only [h2, if_false]
    cases vs with
    | nil => simp at h
    | cons v0 rest =>
      simp only [Option.some.injEq] at h
      subst h
      rfl
  · rw [if_neg h1] at h
    by_cases h2 : lower k = str "content-type"
    · rw [if_pos h2] at h
      cases vs with
      | nil => simp at h
      | cons v0 rest =>
        simp only [Option.some.injEq] at h
        subst h
        simp [h2]
    · rw [if_neg h2] at h
      simp only [h2, if_false]
      split_ifs at h
      · simp only [Option.some.injEq] at h
        subst h
        rfl
      · simp only [Option.some.injEq] at h
        subst h
        rfl

/-- A variable of the loop that takes the first value of the header called `name`
ends as the value it had before the loop when no header is called `name`, and as
the first value of the header called `name` when there is one only. -/
theorem scanHeaders_value {lower : Str → Str} (g : HeaderScan → Str) (name : Str)
    (hstep : ∀ (acc acc' : HeaderScan) (kv : Str × List Str),
      scanHeader lower acc kv = some acc' →
        g acc' = if lower kv.1 = name then kv.2.headD [] else g acc)
    (hdr : Header) (acc s : HeaderScan) (h : scanHeaders lower hdr acc = some s) :
    ((∀ kv ∈ hdr, lower kv.1 ≠ name) → g s = g acc)
      ∧ (∀ kv, hdr.filter (fun e => decide (lower e.1 = name)) = [kv] →
          g s = kv.2.headD []) := by
  induction hdr generalizing acc with
  | nil =>
    simp only [scanHeaders, Option.some.injEq] at h
    subst h
    simp
  | cons e rest ih =>
    simp only [scanHeaders] at h
    cases hacc : scanHeader lower acc e with
    | none => simp [hacc] at h
    | some acc' =>
      simp only [hacc] at h
      have hg := hstep acc acc' e hacc
      obtain ⟨ih₁, ih₂⟩ := ih acc' h
      constructor
      · intro hnone
        have he : ¬ lower e.1 = name := hnone e (List.mem_cons_self _ _)
        rw [ih₁ (fun kv hkv => hnone kv (List.mem_cons_of_mem _ hkv)), hg, if_neg he]
      · intro kv hkv
        by_cases he : lower e.1 = name
        · simp only [List.filter_cons, he, decide_True, if_true, List.cons.injEq] at hkv
          obtain ⟨hek, hrest⟩ := hkv
          have hnone : ∀ kv ∈ rest, lower kv.1 ≠ name := by
            intro kv' hkv' hname
            have : kv' ∈ rest.filter (fun e => decide (lower e.1 = name)) :=
              List.mem_filter.2 ⟨hkv', by simpa using hname⟩
            rw [hrest] at this
            simp at this
          rw [ih₁ hnone, hg, if_pos he, hek]
        · simp only [List.filter_cons, he, decide_False, Bool.false_eq_true, if_false] at hkv
          exact ih₂ kv hkv

theorem filter_name_eq_singleton {lower : Str → Str} {l : Header}
    (hnd : (l.map (fun kv => lower kv.1)).Nodup) {kv : Str × List Str} (hmem : kv ∈ l) :
    l.filter (fun e => decide (lower e.1 = lower kv.1)) = [kv] := by
  induction l with
  | nil => simp at hmem
  | cons e rest ih =>
    simp only [List.map_cons, List.nodup_cons, List.mem_map, not_exists, not_and] at hnd
    rcases List.mem_cons.1 hmem with heq | hrest
    · subst heq
      have hnone : rest.filter (fun e => decide (lower e.1 = lower kv.1)) = [] :=
        List.filter_eq_nil_iff.2 (fun x hx => by simpa using hnd.1 x hx)
      simp [List.filter_cons, hnone]
    · have hne : ¬ lower e.1 = lower kv.1 := fun h => hnd.1 kv hrest h.symm
      simp only [List.filter_cons, hne, decide_False, Bool.false_eq_true, if_false]
      exact ih hnd.2 hrest

/-- The value that the loop of `sign` leaves in a variable taking the first value
of the header called `name` (a name other than `date`), for a request with
case-insensitive header names. -/
theorem sign_scan_value {lower : Str → Str} (g : HeaderScan → Str) (name : Str)
    (hstep : ∀ (acc acc' : HeaderScan) (kv : Str × List Str),
      scanHeader lower acc kv = some acc' →
        g acc' = if lower kv.1 = name then kv.2.headD [] else g acc)
    (hname : lower (str "Date") ≠ name)
    (date : Str) (hdr : Header) (hci : Header.CaseInsensitive lower hdr) (acc s : HeaderScan)
    (h : scanHeaders lower (headerSet hdr (str "Date") date) acc = some s) :
    (∀ k v0 rest, (k, v0 :: rest) ∈ hdr → lower k = name → g s = v0)
      ∧ ((∀ kv ∈ hdr, lower kv.1 ≠ name) → g s = g acc) := by
  obtain ⟨h₁, h₂⟩ := scanHeaders_value g name hstep _ acc s h
  have hfilter : (headerSet hdr (str "Date") date).filter
      (fun e => decide (lower e.1 = name))
      = hdr.filter (fun e => decide (lower e.1 = name)) :=
    filter_mapSet _ _ _ _ (fun _ => by simpa using hname)
  constructor
  · intro k v0 rest hmem hk
    have := filter_name_eq_singleton hci hmem
    simp only [hk] at this
    rw [hfilter] at h₂
    exact h₂ _ this
  · intro hnone
    apply h₁
    intro kv hkv
    rcases mem_mapSet hkv with hd | hd
    · rw [hd]; exact hname
    · exact hnone kv hd

/-- C3, as the code has it. For a request of the data model, `sign` returns and
the payload is the method, the first `Content-MD5` value, the first `Content-Type`
value and the `Date` value that the request carries after the call, each followed
by a newline, then the header-lines block and, directly after it, the resource
string; a `Content-MD5` or `Content-Type` header that is absent gives the empty
string. -/
theorem sign_payload (env : Env) (AccessKey SecretKey : Str) (req : Request)
    (hci : Header.CaseInsensitive env.toLower req.header)
    (hne : Header.NonemptyValues req.header) :
    ∃ s : Signed, sign env AccessKey SecretKey req = some s
      ∧ s.payload = req.method ++ str "\n" ++ s.md5 ++ str "\n" ++ s.contentType
          ++ str "\n" ++ s.date ++ str "\n" ++ s.joinedHeadersToSign ++ s.uri
      ∧ (∀ k v0 rest, (k, v0 :: rest) ∈ req.header → env.toLower k = str "content-md5" →
          s.md5 = v0)
      ∧ ((∀ kv ∈ req.header, env.toLower kv.1 ≠ str "content-md5") → s.md5 = [])
      ∧ (∀ k v0 rest, (k, v0 :: rest) ∈ req.header → env.toLower k = str "content-type" →
          s.contentType = v0)
      ∧ ((∀ kv ∈ req.header, env.toLower kv.1 ≠ str "content-type") → s.contentType = [])
      ∧ mapGet s.request.header (str "Date") = some [s.date] := by
  obtain ⟨scan, hscan⟩ := sign_scan_isSome env req hne
  obtain ⟨hm₁, hm₂⟩ := sign_scan_value (fun a => a.md5) (str "content-md5")
    (fun _ _ _ h => scanHeader_md5 h) (by rw [env.toLower_date]; decide) _ req.header hci _
    scan hscan
  obtain ⟨hc₁, hc₂⟩ := sign_scan_value (fun a => a.contentType) (str "content-type")
    (fun _ _ _ h => scanHeader_contentType h) (by rw [env.toLower_date]; decide) _
    req.header hci _ scan hscan
  refine ⟨_, sign_of_scan env AccessKey SecretKey req scan hscan, rfl, hm₁, hm₂, hc₁, hc₂, ?_⟩
  show mapGet (headerSet (headerSet req.header (str "Date") _) (str "Authorization") _)
    (str "Date") = _
  unfold headerSet
  rw [mapGet_mapSet_of_ne _ _ (by decide), mapGet_mapSet_self]

/-- Witness of C3 (as the code has it), on the request of `datedRequest`. -/
theorem sign_payload_witness :
    Header.CaseInsensitive exampleEnv.toLower datedRequest.header
      ∧ Header.NonemptyValues datedRequest.header
      ∧ (∃ s : Signed, sign exampleEnv (str "AK") (str "SK") datedRequest = some s
          ∧ s.payload = datedRequest.method ++ str "\n" ++ s.md5 ++ str "\n"
              ++ s.contentType ++ str "\n" ++ s.date ++ str "\n"
              ++ s.joinedHeadersToSign ++ s.uri
          ∧ (∀ k v0 rest, (k, v0 :: rest) ∈ datedRequest.header →
              exampleEnv.toLower k = str "content-md5" → s.md5 = v0)
          ∧ ((∀ kv ∈ datedRequest.header, exampleEnv.toLower kv.1 ≠ str "content-md5") → s.md5 = [])
          ∧ (∀ k v0 rest, (k, v0 :: rest) ∈ datedRequest.header →
              exampleEnv.toLower k = str "content-type" → s.contentType = v0)
          ∧ ((∀ kv ∈ datedRequest.header, exampleEnv.toLower kv.1 ≠ str "content-type") →
              s.contentType = [])
          ∧ mapGet s.request.header (str "Date") = some [s.date])
      ∧ (sign exampleEnv (str "AK") (str "SK") datedRequest).map (fun s => s.payload)
          = some (str ("PUT\n1B2M2Y8AsgTpgAmY7PhCfg==\ntext/plain\n"
              ++ "Tue, 14 Nov 2023 22:13:20 UTC\nx-amz-acl:private\n/bucket/key?acl")) :=
  ⟨by decide, by decide,
    sign_payload exampleEnv (str "AK") (str "SK") datedRequest (by decide) (by decide),
    by decide⟩

/-- Counterexample to C3 as stated: the payload of `exampleRequest` is not the
newline-join of its six components (the join has a newline between the
header-lines block and the resource string, the payload has none). -/
theorem sign_payload_not_newline_joined :
    ∃ s : Signed, sign exampleEnv (str "AK") (str "SK") exampleRequest = some s
      ∧ s.payload ≠ stringsJoin
          [exampleRequest.method, s.md5, s.contentType, s.date, s.joinedHeadersToSign, s.uri]
          (str "\n") :=
  ⟨_, rfl, by decide⟩

/-! ## The `Authorization` and `Date` headers -/

/-- C4. For a request whose headers have one or more values each, `sign` returns
and the `Authorization` header of the request then has the single value
`"AWS " + accessKey + ":" + base64(HMAC-SHA1(secretKey, payload))`, whatever
`Authorization` value the request carried before. -/
theorem sign_authorization (env : Env) (AccessKey SecretKey : Str) (req : Request)
    (hne : Header.NonemptyValues req.header) :
    ∃ s : Signed, sign env AccessKey SecretKey req = some s
      ∧ mapGet s.request.header (str "Authorization")
          = some [str "AWS " ++ AccessKey ++ str ":"
              ++ env.base64 (env.hmacSha1 SecretKey s.payload)]
      ∧ s.payload = req.method ++ str "\n" ++ s.md5 ++ str "\n" ++ s.contentType
          ++ str "\n" ++ s.date ++ str "\n" ++ s.joinedHeadersToSign ++ s.uri := by
  obtain ⟨scan, hscan⟩ := sign_scan_isSome env req hne
  refine ⟨_, sign_of_scan env AccessKey SecretKey req scan hscan, ?_, rfl⟩
  exact mapGet_mapSet_self _ _ _

/-- Witness of C4: `datedRequest` carries `Authorization: AWS OLD:stale` before
the call and the new value after it. -/
theorem sign_authorization_witness :
    Header.NonemptyValues datedRequest.header
      ∧ mapGet datedRequest.header (str "Authorization") = some [str "AWS OLD:stale"]
      ∧ (∃ s : Signed, sign exampleEnv (str "AK") (str "SK") datedRequest = some s
          ∧ mapGet s.request.header (str "Authorization")
              = some [str "AWS " ++ str "AK" ++ str ":"
                  ++ exampleEnv.base64 (exampleEnv.hmacSha1 (str "SK") s.payload)]
          ∧ s.payload = datedRequest.method ++ str "\n" ++ s.md5 ++ str "\n"
              ++ s.contentType ++ str "\n" ++ s.date ++ str "\n"
              ++ s.joinedHeadersToSign ++ s.uri) :=
  ⟨by decide, by decide,
    sign_authorization exampleEnv (str "AK") (str "SK") datedRequest (by decide)⟩

/-- Counterexample to C5 as stated: `datedRequest` carries
`Date: Mon, 02 Jan 2006 15:04:05 UTC`; after `sign` at 14 Nov 2023 its `Date`
header and the date of the payload are the time of signing. -/
theorem sign_replaces_date :
    mapGet datedRequest.header (str "Date") = some [str "Mon, 02 Jan 2006 15:04:05 UTC"]
      ∧ ∃ s : Signed, sign exampleEnv (str "AK") (str "SK") datedRequest = some s
        ∧ mapGet s.request.header (str "Date") = some [str "Tue, 14 Nov 2023 22:13:20 UTC"]
        ∧ mapGet s.request.header (str "Date") ≠ mapGet datedRequest.header (str "Date")
        ∧ s.date = str "Tue, 14 Nov 2023 22:13:20 UTC"
        ∧ s.date ≠ str "Mon, 02 Jan 2006 15:04:05 UTC" :=
  ⟨by decide, _, rfl, by decide, by decide, by decide, by decide⟩

/-- C5, as the code has it. For a request whose headers have one or more values
each, with or without a `Date` header, `sign` returns, the `Date` header of the
request then has the single value that is the current UTC time in RFC 1123
format, and that value is the date component of the payload. -/
theorem sign_sets_date (env : Env) (AccessKey SecretKey : Str) (req : Request)
    (hne : Header.NonemptyValues req.header) :
    ∃ s : Signed, sign env AccessKey SecretKey req = some s
      ∧ mapGet s.request.header (str "Date") = some [env.formatRFC1123 env.now]
      ∧ s.date = env.formatRFC1123 env.now
      ∧ s.payload = req.method ++ str "\n" ++ s.md5 ++ str "\n" ++ s.contentType
          ++ str "\n" ++ env.formatRFC1123 env.now ++ str "\n"
          ++ s.joinedHeadersToSign ++ s.uri := by
  obtain ⟨scan, hscan⟩ := sign_scan_isSome env req hne
  refine ⟨_, sign_of_scan env AccessKey SecretKey req scan hscan, ?_, rfl, rfl⟩
  show mapGet (headerSet (headerSet req.header (str "Date") _) (str "Authorization") _)
    (str "Date") = _
  unfold headerSet
  rw [mapGet_mapSet_of_ne _ _ (by decide), mapGet_mapSet_self]

/-- Witness of C5 (as the code has it), on a request without a `Date` header. -/
theorem sign_sets_date_witness :
    Header.NonemptyValues exampleRequest.header
      ∧ mapGet exampleRequest.header (str "Date") = none
      ∧ (∃ s : Signed, sign exampleEnv (str "AK") (str "SK") exampleRequest = some s
          ∧ mapGet s.request.header (str "Date")
              = some [exampleEnv.formatRFC1123 exampleEnv.now]
          ∧ s.date = exampleEnv.formatRFC1123 exampleEnv.now
          ∧ s.payload = exampleRequest.method ++ str "\n" ++ s.md5 ++ str "\n"
              ++ s.contentType ++ str "\n" ++ exampleEnv.formatRFC1123 exampleEnv.now
              ++ str "\n" ++ s.joinedHeadersToSign ++ s.uri) :=
  ⟨by decide, by decide,
    sign_sets_date exampleEnv (str "AK") (str "SK") exampleRequest (by decide)⟩

/-! ## `presignObjectV2` -/

/-- C7. When the access key, the secret key or the endpoint of the client is the
empty string, `presignObjectV2` returns the empty URL and an error, and it has
called neither `url.Parse` nor the signer `Presign2`. -/
theorem presignObjectV2_missing_configuration (urlParse : Str → Except Str Str)
    (Presign2 : Str → Str → Str → Str → Int → Str × Option Str)
    (sc : S3Client) (bucket key : Str) (exp : Int) (put : Bool)
    (h : sc.accessKey = [] ∨ sc.secretKey = [] ∨ sc.endpoint = []) :
    (presignObjectV2 urlParse Presign2 sc bucket key exp put).url = []
      ∧ (presignObjectV2 urlParse Presign2 sc bucket key exp put).err ≠ none
      ∧ (presignObjectV2 urlParse Presign2 sc bucket key exp put).calls = [] := by
  unfold presignObjectV2
  by_cases h1 : sc.accessKey = []
  · simp [h1]
  · by_cases h2 : sc.secretKey = []
    · simp [h1, h2]
    · by_cases h3 : sc.endpoint = []
      · simp [h1, h2, h3]
      · rcases h with h | h | h <;> contradiction

/-- Witness of C7: a client with an empty secret key; the error is
`unknow secret key`. -/
theorem presignObjectV2_missing_configuration_witness :
    (clientWithoutSecret.accessKey = [] ∨ clientWithoutSecret.secretKey = []
        ∨ clientWithoutSecret.endpoint = [])
      ∧ ((presignObjectV2 (fun rawURL => .ok rawURL) (fun u _ _ _ _ => (u, none))
            clientWithoutSecret (str "bucket") (str "key") 3600000000000 false).url = []
        ∧ (presignObjectV2 (fun rawURL => .ok rawURL) (fun u _ _ _ _ => (u, none))
            clientWithoutSecret (str "bucket") (str "key") 3600000000000 false).err ≠ none
        ∧ (presignObjectV2 (fun rawURL => .ok rawURL) (fun u _ _ _ _ => (u, none))
            clientWithoutSecret (str "bucket") (str "key") 3600000000000 false).calls = [])
      ∧ (presignObjectV2 (fun rawURL => .ok rawURL) (fun u _ _ _ _ => (u, none))
            clientWithoutSecret (str "bucket") (str "key") 3600000000000 false).err
          = some (str "unknow secret key") :=
  ⟨Or.inr (Or.inl rfl),
    presignObjectV2_missing_configuration _ _ clientWithoutSecret (str "bucket") (str "key")
      3600000000000 false (Or.inr (Or.inl rfl)),
    by decide⟩

/-! ## Tokens of the query parameters and lines of multi-valued headers -/

theorem length_queriesToSign (params : Values) :
    (queriesToSign params).length
      = ((params.filter (fun kv => decide (kv.1 ∈ s3ParamsToSign))).map
          (fun kv => kv.2.length)).sum := by
  rw [queriesToSign_eq_filter]
  induction params.filter (fun kv => decide (kv.1 ∈ s3ParamsToSign)) with
  | nil => rfl
  | cons kv rest ih =>
    simp only [List.flatMap_cons, List.length_append, List.length_map, List.map_cons,
      List.sum_cons, ih]

theorem mem_queriesToSign {params : Values} {t : Str} :
    t ∈ queriesToSign params ↔
      ∃ k vs v, (k, vs) ∈ params ∧ k ∈ s3ParamsToSign ∧ v ∈ vs
        ∧ t = if v = [] then k else k ++ str "=" ++ v := by
  unfold queriesToSign
  constructor
  · intro h
    obtain ⟨⟨k, vs⟩, hkv, ht⟩ := List.mem_flatMap.1 h
    by_cases hallow : k ∈ s3ParamsToSign
    · simp only [hallow, if_true] at ht
      obtain ⟨v, hv, rfl⟩ := List.mem_map.1 ht
      exact ⟨k, vs, v, hkv, hallow, hv, rfl⟩
    · simp [hallow] at ht
  · rintro ⟨k, vs, v, hkv, hallow, hv, rfl⟩
    refine List.mem_flatMap.2 ⟨(k, vs), hkv, ?_⟩
    simp only [hallow, if_true]
    exact List.mem_map.2 ⟨v, hv, rfl⟩

/-- C9. For a request whose headers have one or more values each, `sign`
returns and the tokens that it sorts and joins after `?` are these: each value
of each allow-listed parameter gives the bare name when the value is empty and
`name=value` otherwise, every token comes from such a value, and there are as
many tokens as the allow-listed parameters have values. -/
theorem sign_query_tokens (env : Env) (AccessKey SecretKey : Str) (req : Request)
    (hne : Header.NonemptyValues req.header) :
    ∃ (s : Signed) (toks : List Str), sign env AccessKey SecretKey req = some s
      ∧ toks.Pairwise (fun a b => strLe a b = true)
      ∧ (toks ≠ [] → s.uri = s.path ++ str "?" ++ stringsJoin toks (str "&"))
      ∧ (toks = [] → s.uri = s.path)
      ∧ (∀ k vs, (k, vs) ∈ urlQuery req.rawQuery → k ∈ s3ParamsToSign → ∀ v ∈ vs,
          (v = [] → k ∈ toks) ∧ (v ≠ [] → k ++ str "=" ++ v ∈ toks))
      ∧ (∀ t ∈ toks, ∃ k vs v, (k, vs) ∈ urlQuery req.rawQuery ∧ k ∈ s3ParamsToSign
          ∧ v ∈ vs ∧ ((v = [] ∧ t = k) ∨ (v ≠ [] ∧ t = k ++ str "=" ++ v)))
      ∧ toks.length
          = (((urlQuery req.rawQuery).filter (fun kv => decide (kv.1 ∈ s3ParamsToSign))).map
              (fun kv => kv.2.length)).sum := by
  obtain ⟨scan, hscan⟩ := sign_scan_isSome env req hne
  have hperm := sortStrings_perm (queriesToSign (urlQuery req.rawQuery))
  refine ⟨_, sortStrings (queriesToSign (urlQuery req.rawQuery)),
    sign_of_scan env AccessKey SecretKey req scan hscan, sortStrings_sorted _, ?_, ?_, ?_, ?_,
    ?_⟩
  · intro hnn
    have hlen : (queriesToSign (urlQuery req.rawQuery)).length > 0 := by
      rw [← hperm.length_eq]
      exact List.length_pos.2 hnn
    simp only [uriWithQuery, hlen, if_true]
  · intro hnil
    have hq : queriesToSign (urlQuery req.rawQuery) = [] := by
      have := hperm.length_eq
      rw [hnil] at this
      exact List.length_eq_zero.1 this.symm
    simp [uriWithQuery, hq]
  · intro k vs hkv hallow v hv
    constructor
    · intro hv0
      refine hperm.mem_iff.2 (mem_queriesToSign.2 ⟨k, vs, v, hkv, hallow, hv, ?_⟩)
      simp [hv0]
    · intro hv0
      refine hperm.mem_iff.2 (mem_queriesToSign.2 ⟨k, vs, v, hkv, hallow, hv, ?_⟩)
      simp [hv0]
  · intro t ht
    obtain ⟨k, vs, v, hkv, hallow, hv, rfl⟩ := mem_queriesToSign.1 (hperm.mem_iff.1 ht)
    refine ⟨k, vs, v, hkv, hallow, hv, ?_⟩
    by_cases hv0 : v = []
    · exact Or.inl ⟨hv0, by simp [hv0]⟩
    · exact Or.inr ⟨hv0, by simp [hv0]⟩
  · rw [hperm.length_eq, length_queriesToSign]

/-- Witness of C9: the query `acl&versionId=3&versionId=` gives the tokens
`acl`, `versionId` and `versionId=3`. -/
theorem sign_query_tokens_witness :
    Header.NonemptyValues multiValueRequest.header
      ∧ (∃ (s : Signed) (toks : List Str),
          sign exampleEnv (str "AK") (str "SK") multiValueRequest = some s
          ∧ toks.Pairwise (fun a b => strLe a b = true)
          ∧ (toks ≠ [] → s.uri = s.path ++ str "?" ++ stringsJoin toks (str "&"))
          ∧ (toks = [] → s.uri = s.path)
          ∧ (∀ k vs, (k, vs) ∈ urlQuery multiValueRequest.rawQuery → k ∈ s3ParamsToSign →
              ∀ v ∈ vs, (v = [] → k ∈ toks) ∧ (v ≠ [] → k ++ str "=" ++ v ∈ toks))
          ∧ (∀ t ∈ toks, ∃ k vs v, (k, vs) ∈ urlQuery multiValueRequest.rawQuery
              ∧ k ∈ s3ParamsToSign ∧ v ∈ vs
              ∧ ((v = [] ∧ t = k) ∨ (v ≠ [] ∧ t = k ++ str "=" ++ v)))
          ∧ toks.length
              = (((urlQuery multiValueRequest.rawQuery).filter
                  (fun kv => decide (kv.1 ∈ s3ParamsToSign))).map
                    (fun kv => kv.2.length)).sum)
      ∧ (sign exampleEnv (str "AK") (str "SK") multiValueRequest).map (fun s => s.uri)
          = some (str "/bucket/key?acl&versionId&versionId=3")
      ∧ (sign exampleEnv (str "AK") (str "SK") datedRequest).map (fun s => s.uri)
          = some (str "/bucket/key?acl") :=
  ⟨by decide,
    sign_query_tokens exampleEnv (str "AK") (str "SK") multiValueRequest (by decide),
    by decide, by decide⟩

theorem stringsJoin_eq_intercalate (l : List Str) (sep : Str) :
    stringsJoin l sep = List.intercalate sep l := by
  induction l with
  | nil => rfl
  | cons a rest ih =>
    cases rest with
    | nil => simp [stringsJoin, List.intercalate]
    | cons b rest' =>
      simp only [stringsJoin, ih]
      simp [List.intercalate, List.intersperse]

/-- C10. For a request of the data model and a header of it whose lower-cased
name starts with `x-amz-`, with values `vs`, `sign` returns and the header-lines
block holds, between the lines of the other `x-amz-` headers, the line made of
the lower-cased name, a colon and the values in their order with one comma
between two of them (`a,b` for the values `a` and `b`), followed by a newline. -/
theorem sign_multi_valued_header (env : Env) (AccessKey SecretKey : Str) (req : Request)
    (hci : Header.CaseInsensitive env.toLower req.header) (hne : Header.NonemptyValues req.header)
    (k : Str) (vs : List Str) (hmem : (k, vs) ∈ req.header)
    (hamz : startsWith (env.toLower k) (str "x-amz-") = true) :
    ∃ (s : Signed) (l₁ l₂ : Header), sign env AccessKey SecretKey req = some s
      ∧ (l₁ ++ (k, vs) :: l₂).Perm (req.header.filter
          (fun kv => startsWith (env.toLower kv.1) (str "x-amz-")))
      ∧ s.joinedHeadersToSign
          = l₁.flatMap (fun kv =>
              env.toLower kv.1 ++ str ":" ++ stringsJoin kv.2 (str ",") ++ str "\n")
            ++ (env.toLower k ++ str ":" ++ List.intercalate (str ",") vs ++ str "\n")
            ++ l₂.flatMap (fun kv =>
              env.toLower kv.1 ++ str ":" ++ stringsJoin kv.2 (str ",") ++ str "\n")
      ∧ (∀ a b, vs = [a, b] → List.intercalate (str ",") vs = a ++ str "," ++ b) := by
  obtain ⟨scan, hscan⟩ := sign_scan_isSome env req hne
  have hblock := sign_scan_block env.toLower_date _ req.header hci scan hscan
  have hin : (k, vs) ∈ sortedAmzHeaders env.toLower req.header :=
    (sortedAmzHeaders_perm req.header).mem_iff.2
      (List.mem_filter.2 ⟨hmem, by simpa [isAmzHeader] using hamz⟩)
  obtain ⟨l₁, l₂, hsplit⟩ := List.append_of_mem hin
  refine ⟨_, l₁, l₂, sign_of_scan env AccessKey SecretKey req scan hscan, ?_, ?_, ?_⟩
  · rw [← hsplit]
    exact sortedAmzHeaders_perm req.header
  · show joinedHeadersToSign (headersToSign scan.tmpHeadersToSign) = _
    rw [hblock, hsplit, ← stringsJoin_eq_intercalate]
    simp [List.flatMap_append, List.flatMap_cons]
  · rintro a b rfl
    simp [List.intercalate, List.intersperse]

/-- Witness of C10: the header `X-Amz-Meta-Name` with the values `a` and `b`
gives the line `x-amz-meta-name:a,b`. -/
theorem sign_multi_valued_header_witness :
    Header.CaseInsensitive exampleEnv.toLower multiValueRequest.header
      ∧ Header.NonemptyValues multiValueRequest.header
      ∧ (str "X-Amz-Meta-Name", [str "a", str "b"]) ∈ multiValueRequest.header
      ∧ startsWith (exampleEnv.toLower (str "X-Amz-Meta-Name")) (str "x-amz-") = true
      ∧ (∃ (s : Signed) (l₁ l₂ : Header),
          sign exampleEnv (str "AK") (str "SK") multiValueRequest = some s
          ∧ (l₁ ++ (str "X-Amz-Meta-Name", [str "a", str "b"]) :: l₂).Perm
              (multiValueRequest.header.filter
                (fun kv => startsWith (exampleEnv.toLower kv.1) (str "x-amz-")))
          ∧ s.joinedHeadersToSign
              = l₁.flatMap (fun kv =>
                  exampleEnv.toLower kv.1 ++ str ":" ++ stringsJoin kv.2 (str ",") ++ str "\n")
                ++ (exampleEnv.toLower (str "X-Amz-Meta-Name") ++ str ":"
                    ++ List.intercalate (str ",") [str "a", str "b"] ++ str "\n")
                ++ l₂.flatMap (fun kv =>
                  exampleEnv.toLower kv.1 ++ str ":" ++ stringsJoin kv.2 (str ",") ++ str "\n")
          ∧ (∀ a b, [str "a", str "b"] = [a, b] →
              List.intercalate (str ",") [str "a", str "b"] = a ++ str "," ++ b))
      ∧ (sign exampleEnv (str "AK") (str "SK") multiValueRequest).map
          (fun s => s.joinedHeadersToSign) = some (str "x-amz-meta-name:a,b\n") :=
  ⟨by decide, by decide, by decide, by decide,
    sign_multi_valued_header exampleEnv (str "AK") (str "SK") multiValueRequest
      (by decide) (by decide) (str "X-Amz-Meta-Name") [str "a", str "b"]
      (by decide) (by decide),
    by decide⟩

/-! ## Escaping of query components -/

theorem unhex_hexDigit {n : Nat} (h : n < 16) : unhex (hexDigit n) = some n := by
  have key : ∀ m : Fin 16, unhex (hexDigit m.val) = some m.val := by decide
  exact key ⟨n, h⟩

theorem byte_of_nibbles (c : Byte) : Fin.ofNat (16 * (c.val / 16) + c.val % 16) = c := by
  apply Fin.ext
  have h := c.isLt
  simp only [Fin.ofNat]
  omega

theorem shouldEscape_false_ne {c : Byte} (h : shouldEscape c = false) :
    c ≠ 37 ∧ c ≠ 43 ∧ c ≠ 38 ∧ c ≠ 61 ∧ c ≠ 59 := by
  refine ⟨?_, ?_, ?_, ?_, ?_⟩ <;> (rintro rfl; revert h; decide)

theorem hexDigit_ne {n : Nat} (h : n < 16) :
    hexDigit n ≠ 38 ∧ hexDigit n ≠ 61 ∧ hexDigit n ≠ 59 := by
  have key : ∀ m : Fin 16, hexDigit m.val ≠ 38 ∧ hexDigit m.val ≠ 61 ∧ hexDigit m.val ≠ 59 := by
    decide
  exact key ⟨n, h⟩

theorem queryUnescape_cons_of_ne {c : Byte} (rest : Str) (h37 : c ≠ 37) (h43 : c ≠ 43) :
    queryUnescape (c :: rest) = (queryUnescape rest).map (fun r => c :: r) := by
  rcases rest with _ | ⟨a, _ | ⟨b, rest'⟩⟩ <;> simp [queryUnescape, h37, h43]

theorem queryUnescape_plus (rest : Str) :
    queryUnescape (43 :: rest) = (queryUnescape rest).map (fun r => 32 :: r) := by
  rcases rest with _ | ⟨a, _ | ⟨b, rest'⟩⟩ <;> simp [queryUnescape]

theorem queryUnescape_percent (a b : Byte) (rest : Str) (x y : Nat) (r : Str)
    (ha : unhex a = some x) (hb : unhex b = some y) (hr : queryUnescape rest = some r) :
    queryUnescape (37 :: a :: b :: rest) = some (Fin.ofNat (16 * x + y) :: r) := by
  simp [queryUnescape, ha, hb, hr]

theorem queryEscape_space (rest : Str) :
    queryEscape (32 :: rest) = 43 :: queryEscape rest := by
  have h32 : shouldEscape (32 : Byte) = true := by decide
  simp [queryEscape, h32]

theorem queryEscape_escaped {c : Byte} (rest : Str) (hesc : shouldEscape c = true)
    (hsp : c ≠ 32) :
    queryEscape (c :: rest)
      = 37 :: hexDigit (c.val / 16) :: hexDigit (c.val % 16) :: queryEscape rest := by
  simp [queryEscape, hesc, hsp]

theorem queryEscape_plain {c : Byte} (rest : Str) (hesc : shouldEscape c = false) :
    queryEscape (c :: rest) = c :: queryEscape rest := by
  simp [queryEscape, hesc]

theorem queryUnescape_queryEscape (s : Str) : queryUnescape (queryEscape s) = some s := by
  induction s with
  | nil => rfl
  | cons c rest ih =>
    have hc := c.isLt
    by_cases hesc : shouldEscape c = true
    · by_cases hsp : c = 32
      · subst hsp
        rw [queryEscape_space, queryUnescape_plus, ih]
        rfl
      · rw [queryEscape_escaped _ hesc hsp,
          queryUnescape_percent _ _ _ _ _ _ (unhex_hexDigit (by omega))
            (unhex_hexDigit (by omega)) ih, byte_of_nibbles]
    · have hesc' : shouldEscape c = false := by simpa using hesc
      obtain ⟨h37, h43, -⟩ := shouldEscape_false_ne hesc'
      rw [queryEscape_plain _ hesc', queryUnescape_cons_of_ne _ h37 h43, ih]
      rfl

theorem queryEscape_safe (s : Str) :
    ∀ c ∈ queryEscape s, c ≠ 38 ∧ c ≠ 61 ∧ c ≠ 59 := by
  induction s with
  | nil => simp [queryEscape]
  | cons c rest ih =>
    have hc := c.isLt
    intro x hx
    by_cases hesc : shouldEscape c = true
    · by_cases hsp : c = 32
      · subst hsp
        rw [queryEscape_space, List.mem_cons] at hx
        rcases hx with h | hx
        · rw [h]; decide
        · exact ih x hx
      · rw [queryEscape_escaped _ hesc hsp] at hx
        simp only [List.mem_cons] at hx
        rcases hx with h | h | h | hx
        · rw [h]; decide
        · rw [h]; exact hexDigit_ne (by omega)
        · rw [h]; exact hexDigit_ne (by omega)
        · exact ih x hx
    · have hesc' : shouldEscape c = false := by simpa using hesc
      rw [queryEscape_plain _ hesc', List.mem_cons] at hx
      rcases hx with h | hx
      · rw [h]; exact (shouldEscape_false_ne hesc').2.2
      · exact ih x hx

/-! ## Parsing an encoded query -/

theorem splitOn_ne_nil (sep : Byte) (s : Str) : splitOn sep s ≠ [] := by
  induction s with
  | nil => simp [splitOn]
  | cons c rest ih =>
    by_cases h : c = sep
    · simp [splitOn, h]
    · cases hs : splitOn sep rest with
      | nil => exact absurd hs ih
      | cons seg segs => simp [splitOn, h, hs]

theorem splitOn_of_not_mem {sep : Byte} {a : Str} (h : sep ∉ a) : splitOn sep a = [a] := by
  induction a with
  | nil => rfl
  | cons c rest ih =>
    simp only [List.mem_cons, not_or] at h
    have hc : ¬ c = sep := fun hc => h.1 hc.symm
    simp [splitOn, hc, ih h.2]

theorem splitOn_append_sep {sep : Byte} {a : Str} (h : sep ∉ a) (rest : Str) :
    splitOn sep (a ++ sep :: rest) = a :: splitOn sep rest := by
  induction a with
  | nil => simp [splitOn]
  | cons c a ih =>
    simp only [List.mem_cons, not_or] at h
    have hc : ¬ c = sep := fun hc => h.1 hc.symm
    simp [splitOn, hc, ih h.2]

theorem str_amp : str "&" = [38] := rfl

theorem str_eq : str "=" = [61] := rfl

theorem splitOn_stringsJoin (toks : List Str) (hne : toks ≠ [])
    (h : ∀ t ∈ toks, (38 : Byte) ∉ t) :
    splitOn 38 (stringsJoin toks (str "&")) = toks := by
  induction toks with
  | nil => exact absurd rfl hne
  | cons a rest ih =>
    cases rest with
    | nil => simpa [stringsJoin] using splitOn_of_not_mem (h a (List.mem_cons_self _ _))
    | cons b rest' =>
      have ha := h a (List.mem_cons_self _ _)
      have := ih (by simp) (fun t ht => h t (List.mem_cons_of_mem _ ht))
      simp only [stringsJoin, str_amp, List.append_assoc, List.singleton_append] at this ⊢
      rw [splitOn_append_sep ha, this]

theorem cut_append_sep {sep : Byte} {a : Str} (h : sep ∉ a) (b : Str) :
    cut sep (a ++ sep :: b) = (a, b) := by
  induction a with
  | nil => simp [cut]
  | cons c a ih =>
    simp only [List.mem_cons, not_or] at h
    have hc : ¬ c = sep := fun hc => h.1 hc.symm
    simp [cut, hc, ih h.2]

/-- The parser reads back a piece written by `Values.Encode`. -/
theorem parseQueryStep_token (m : Values) (k v : Str) :
    parseQueryStep m (queryEscape k ++ str "=" ++ queryEscape v) = valuesAdd m k v := by
  have h59 : (59 : Byte) ∉ queryEscape k ++ str "=" ++ queryEscape v := by
    intro hmem
    simp only [str_eq, List.mem_append, List.mem_singleton] at hmem
    rcases hmem with (hmem | hmem) | hmem
    · exact (queryEscape_safe k _ hmem).2.2 rfl
    · exact absurd hmem (by decide)
    · exact (queryEscape_safe v _ hmem).2.2 rfl
  have h61 : (61 : Byte) ∉ queryEscape k := fun hmem => (queryEscape_safe k _ hmem).2.1 rfl
  have hcut : cut 61 (queryEscape k ++ str "=" ++ queryEscape v)
      = (queryEscape k, queryEscape v) := by
    rw [str_eq, List.append_assoc]
    exact cut_append_sep h61 _
  have hne : ¬ queryEscape k ++ str "=" ++ queryEscape v = [] := by
    simp [str_eq]
  unfold parseQueryStep
  rw [if_neg h59, if_neg hne, hcut]
  simp only [queryUnescape_queryEscape]

/-- The `(key, value)` pairs of a `Values` in the order in which `Values.Encode`
writes them. -/
theorem encodeTokens_eq (q : Values) :
    encodeTokens q
      = ((sortStrings (q.map Prod.fst)).flatMap (fun k =>
          ((mapGet q k).getD []).map (fun v => (k, v)))).map
            (fun p => queryEscape p.1 ++ str "=" ++ queryEscape p.2) := by
  unfold encodeTokens
  induction sortStrings (q.map Prod.fst) with
  | nil => rfl
  | cons k rest ih =>
    rw [List.flatMap_cons, List.flatMap_cons, List.map_append, ih, List.map_map]
    rfl

theorem urlQuery_stringsJoin_tokens (pairs : List (Str × Str)) :
    urlQuery (stringsJoin
      (pairs.map (fun p => queryEscape p.1 ++ str "=" ++ queryEscape p.2)) (str "&"))
      = pairs.foldl (fun m p => valuesAdd m p.1 p.2) [] := by
  unfold urlQuery
  by_cases hp : pairs = []
  · subst hp
    rfl
  · rw [splitOn_stringsJoin _ (by simpa using hp), List.foldl_map]
    · congr 1
      funext m p
      exact parseQueryStep_token m p.1 p.2
    · intro t ht
      obtain ⟨p, -, rfl⟩ := List.mem_map.1 ht
      intro hmem
      simp only [str_eq, List.mem_append, List.mem_singleton] at hmem
      rcases hmem with (hmem | hmem) | hmem
      · exact (queryEscape_safe p.1 _ hmem).1 rfl
      · exact absurd hmem (by decide)
      · exact (queryEscape_safe p.2 _ hmem).1 rfl

theorem getD_valuesAdd (m : Values) (k v k' : Str) :
    (mapGet (valuesAdd m k v) k').getD []
      = if k' = k then (mapGet m k).getD [] ++ [v] else (mapGet m k').getD [] := by
  unfold valuesAdd
  by_cases h : k' = k
  · subst h
    simp [mapGet_mapSet_self]
  · simp [h, mapGet_mapSet_of_ne _ _ h]

theorem getD_foldl_valuesAdd (pairs : List (Str × Str)) (m : Values) (k : Str) :
    (mapGet (pairs.foldl (fun m p => valuesAdd m p.1 p.2) m) k).getD []
      = (mapGet m k).getD []
          ++ (pairs.filter (fun p => decide (p.1 = k))).map Prod.snd := by
  induction pairs generalizing m with
  | nil => simp
  | cons p rest ih =>
    rw [List.foldl_cons, ih, getD_valuesAdd]
    by_cases h : p.1 = k
    · simp [List.filter_cons, h]
    · have h' : ¬ k = p.1 := fun e => h e.symm
      simp [List.filter_cons, h, h']

theorem filter_pairs (f : Str → List Str) (keys : List Str) (hnd : keys.Nodup) (k : Str) :
    ((keys.flatMap (fun k' => (f k').map (fun v => (k', v)))).filter
        (fun p => decide (p.1 = k))).map Prod.snd
      = if k ∈ keys then f k else [] := by
  induction keys with
  | nil => simp
  | cons k₀ rest ih =>
    rw [List.nodup_cons] at hnd
    rw [List.flatMap_cons, List.filter_append, List.map_append, ih hnd.2]
    by_cases h : k₀ = k
    · subst h
      have h₁ : ((f k₀).map (fun v => (k₀, v))).filter (fun p => decide (p.1 = k₀))
          = (f k₀).map (fun v => (k₀, v)) :=
        List.filter_eq_self.2 (fun p hp => by
          obtain ⟨v, -, rfl⟩ := List.mem_map.1 hp
          simp)
      simp [h₁, hnd.1, List.map_map, Function.comp_def]
    · have h₁ : ((f k₀).map (fun v => (k₀, v))).filter (fun p => decide (p.1 = k)) = [] :=
        List.filter_eq_nil_iff.2 (fun p hp => by
          obtain ⟨v, -, rfl⟩ := List.mem_map.1 hp
          simpa using h)
      have h' : ¬ k = k₀ := fun e => h e.symm
      simp [h₁, h']

theorem mapGet_eq_none_of_not_mem {α : Type} {m : List (Str × α)} {k : Str}
    (h : k ∉ m.map Prod.fst) : mapGet m k = none := by
  cases hg : mapGet m k with
  | none => rfl
  | some v => exact absurd (List.mem_map.2 ⟨(k, v), mem_of_mapGet hg, rfl⟩) h

theorem mapGet_eq_of_getD_eq {m m' : Values} (hm : ∀ kv ∈ m, kv.2 ≠ [])
    (hm' : ∀ kv ∈ m', kv.2 ≠ []) {k : Str}
    (h : (mapGet m k).getD [] = (mapGet m' k).getD []) : mapGet m k = mapGet m' k := by
  cases h₁ : mapGet m k with
  | none =>
    cases h₂ : mapGet m' k with
    | none => rfl
    | some vs' =>
      rw [h₁, h₂] at h
      exact absurd h.symm (hm' _ (mem_of_mapGet h₂))
  | some vs =>
    cases h₂ : mapGet m' k with
    | none =>
      rw [h₁, h₂] at h
      exact absurd h (hm _ (mem_of_mapGet h₁))
    | some vs' =>
      rw [h₁, h₂] at h
      exact congrArg some h

/-- Parsing what `Values.Encode` wrote gives back the mapping: every key has the
values it had, in their order. -/
theorem urlQuery_valuesEncode (q : Values) (hnd : (q.map Prod.fst).Nodup)
    (hne : ∀ kv ∈ q, kv.2 ≠ []) (k : Str) :
    mapGet (urlQuery (valuesEncode q)) k = mapGet q k := by
  apply mapGet_eq_of_getD_eq (urlQuery_values_ne_nil _) hne
  unfold valuesEncode
  rw [encodeTokens_eq, urlQuery_stringsJoin_tokens, getD_foldl_valuesAdd,
    filter_pairs _ _ ((sortStrings_perm _).nodup_iff.2 hnd)]
  by_cases hk : k ∈ sortStrings (q.map Prod.fst)
  · simp [hk, mapGet]
  · have hk' : k ∉ q.map Prod.fst := fun h => hk ((sortStrings_perm _).mem_iff.2 h)
    simp [hk, mapGet, mapGet_eq_none_of_not_mem hk']

/-! ## The query after `v2Presign` -/

theorem keys_mapSet {α : Type} (m : List (Str × α)) (k : Str) (v : α) :
    (mapSet m k v).map Prod.fst
      = if k ∈ m.map Prod.fst then m.map Prod.fst else m.map Prod.fst ++ [k] := by
  induction m with
  | nil => simp [mapSet]
  | cons e rest ih =>
    obtain ⟨k', v'⟩ := e
    by_cases hk : k' = k
    · subst hk
      simp [mapSet]
    · have hk' : ¬ k = k' := fun h => hk h.symm
      simp only [mapSet, hk, if_false, List.map_cons, ih, List.mem_cons, hk', false_or]
      split_ifs <;> simp

theorem nodup_keys_mapSet {α : Type} {m : List (Str × α)} (h : (m.map Prod.fst).Nodup)
    (k : Str) (v : α) : ((mapSet m k v).map Prod.fst).Nodup := by
  rw [keys_mapSet]
  split_ifs with hk
  · exact h
  · exact List.nodup_append.2 ⟨h, List.nodup_singleton k, by
      intro a ha hb
      rw [List.mem_singleton] at hb
      exact hk (hb ▸ ha)⟩

theorem nodup_keys_parseQueryStep {m : Values} (h : (m.map Prod.fst).Nodup) (seg : Str) :
    ((parseQueryStep m seg).map Prod.fst).Nodup := by
  unfold parseQueryStep
  split_ifs
  · exact h
  · exact h
  · split
    · exact nodup_keys_mapSet h _ _
    · exact h

theorem nodup_keys_foldl_parseQueryStep (segs : List Str) {m : Values}
    (h : (m.map Prod.fst).Nodup) : ((segs.foldl parseQueryStep m).map Prod.fst).Nodup := by
  induction segs generalizing m with
  | nil => exact h
  | cons seg rest ih => exact ih (nodup_keys_parseQueryStep h seg)

/-- The names of a parsed query are distinct. -/
theorem nodup_keys_urlQuery (rawQuery : Str) : ((urlQuery rawQuery).map Prod.fst).Nodup :=
  nodup_keys_foldl_parseQueryStep _ (by simp)

theorem values_ne_nil_valuesSet {q : Values} (h : ∀ kv ∈ q, kv.2 ≠ []) (k v : Str) :
    ∀ kv ∈ valuesSet q k v, kv.2 ≠ [] := by
  intro kv hkv
  rcases mem_mapSet hkv with e | e
  · rw [e]; simp
  · exact h kv e

/-- The query that `v2Presign` leaves in the URL parses to the mapping `q` that
it encoded. -/
theorem v2Presign_urlQuery (env : Env) (AccessKey SecretKey : Str) (expireTime : Int)
    (req : Request) (k : Str) :
    mapGet (urlQuery (v2Presign env AccessKey SecretKey expireTime req).request.rawQuery) k
      = mapGet (v2Presign env AccessKey SecretKey expireTime req).q k := by
  apply urlQuery_valuesEncode
  · exact nodup_keys_mapSet (nodup_keys_mapSet (nodup_keys_mapSet
      (nodup_keys_urlQuery _) _ _) _ _) _ _
  · exact values_ne_nil_valuesSet (values_ne_nil_valuesSet (values_ne_nil_valuesSet
      (urlQuery_values_ne_nil _) _ _) _ _) _ _

theorem wrapInt64_of_range {x : Int} (h : -2 ^ 63 ≤ x ∧ x < 2 ^ 63) : wrapInt64 x = x := by
  unfold wrapInt64
  omega

/-! ## The presigned query -/

theorem headerGet_of_mem {h : Header} (hkeys : (h.map Prod.fst).Nodup) {key v0 : Str}
    {rest : List Str} (hmem : (key, v0 :: rest) ∈ h) : headerGet h key = v0 := by
  unfold headerGet
  rw [mapGet_of_mem hkeys hmem]

theorem headerGet_of_no_value {h : Header} {key : Str}
    (hnone : ∀ kv ∈ h, kv.1 = key → kv.2 = []) : headerGet h key = [] := by
  unfold headerGet
  cases hg : mapGet h key with
  | none => rfl
  | some vs =>
    cases vs with
    | nil => rfl
    | cons v0 rest => exact absurd (hnone _ (mem_of_mapGet hg) rfl) (by simp)

/-- C6. With the clock at `T` and a duration of `seconds` whole seconds (`T +
seconds` an `int64`), the query that `v2Presign` leaves in the URL has `Expires`
equal to the decimal string of `T + seconds` and `Signature` equal to
`base64(HMAC-SHA1(secretKey, method \n md5 \n ct \n Expires \n escaped path))`,
where `md5` is the first value that the header map holds under `Content-Md5` (the
key that `Header.Get` reads for `Content-MD5`) and `ct` the first value under
`Content-Type`, each the empty string when the map holds no value there; a
request that differs in its raw query only gets the same `Signature`. -/
theorem v2Presign_expires_signature (env : Env) (AccessKey SecretKey : Str)
    (seconds : Int) (req req' : Request)
    (hT : -2 ^ 63 ≤ env.now + seconds ∧ env.now + seconds < 2 ^ 63)
    (hsame : req'.method = req.method ∧ req'.escapedPath = req.escapedPath
      ∧ req'.header = req.header)
    (hkeys : (req.header.map Prod.fst).Nodup) :
    ∃ md5 ct : Str,
      (∀ v0 rest, (str "Content-Md5", v0 :: rest) ∈ req.header → md5 = v0)
      ∧ ((∀ kv ∈ req.header, kv.1 = str "Content-Md5" → kv.2 = []) → md5 = [])
      ∧ (∀ v0 rest, (str "Content-Type", v0 :: rest) ∈ req.header → ct = v0)
      ∧ ((∀ kv ∈ req.header, kv.1 = str "Content-Type" → kv.2 = []) → ct = [])
      ∧ (v2Presign env AccessKey SecretKey (seconds * 1000000000) req).strToSign
          = req.method ++ str "\n" ++ md5 ++ str "\n" ++ ct ++ str "\n"
            ++ formatInt (env.now + seconds) ++ str "\n" ++ req.escapedPath
      ∧ mapGet (urlQuery (v2Presign env AccessKey SecretKey (seconds * 1000000000)
          req).request.rawQuery) (str "Expires")
        = some [formatInt (env.now + seconds)]
      ∧ mapGet (urlQuery (v2Presign env AccessKey SecretKey (seconds * 1000000000)
          req).request.rawQuery) (str "Signature")
        = some [env.base64 (env.hmacSha1 SecretKey
            (req.method ++ str "\n" ++ md5 ++ str "\n" ++ ct ++ str "\n"
              ++ formatInt (env.now + seconds) ++ str "\n" ++ req.escapedPath))]
      ∧ mapGet (urlQuery (v2Presign env AccessKey SecretKey (seconds * 1000000000)
          req').request.rawQuery) (str "Signature")
        = mapGet (urlQuery (v2Presign env AccessKey SecretKey (seconds * 1000000000)
          req).request.rawQuery) (str "Signature") := by
  obtain ⟨hm, hp, hh⟩ := hsame
  have hexp : formatInt (wrapInt64 (env.now + env.durationSeconds (seconds * 1000000000)))
      = formatInt (env.now + seconds) := by
    rw [env.durationSeconds_whole, wrapInt64_of_range hT]
  refine ⟨headerGet req.header (str "Content-Md5"), headerGet req.header (str "Content-Type"),
    fun v0 rest hmem => headerGet_of_mem hkeys hmem, headerGet_of_no_value,
    fun v0 rest hmem => headerGet_of_mem hkeys hmem, headerGet_of_no_value, ?_, ?_, ?_, ?_⟩
  · simp only [v2Presign, hexp]
  · rw [v2Presign_urlQuery]
    simp only [v2Presign, valuesSet, hexp]
    rw [mapGet_mapSet_of_ne _ _ (by decide), mapGet_mapSet_self]
  · rw [v2Presign_urlQuery]
    simp only [v2Presign, valuesSet, hexp]
    rw [mapGet_mapSet_self]
  · rw [v2Presign_urlQuery, v2Presign_urlQuery]
    simp only [v2Presign, valuesSet, hm, hp, hh]
    rw [mapGet_mapSet_self, mapGet_mapSet_self]

/-- Witness of C6: presigning `datedRequest`, which carries `Content-Md5` and
`Content-Type`, for 3600 seconds at `T = 1700000000` signs
`PUT \n 1B2M2Y8AsgTpgAmY7PhCfg== \n text/plain \n 1700003600 \n /bucket/key` and
leaves `Expires=1700003600`; the request with the same method, path and headers
and another query gets the same signature. -/
theorem v2Presign_expires_signature_witness :
    (-2 ^ 63 ≤ exampleEnv.now + 3600 ∧ exampleEnv.now + 3600 < 2 ^ 63)
      ∧ ({ datedRequest with rawQuery := str "versionId=7" }.method = datedRequest.method
        ∧ { datedRequest with rawQuery := str "versionId=7" }.escapedPath
            = datedRequest.escapedPath
        ∧ { datedRequest with rawQuery := str "versionId=7" }.header = datedRequest.header)
      ∧ (datedRequest.header.map Prod.fst).Nodup
      ∧ (∃ md5 ct : Str,
          (∀ v0 rest, (str "Content-Md5", v0 :: rest) ∈ datedRequest.header → md5 = v0)
          ∧ ((∀ kv ∈ datedRequest.header, kv.1 = str "Content-Md5" → kv.2 = []) → md5 = [])
          ∧ (∀ v0 rest, (str "Content-Type", v0 :: rest) ∈ datedRequest.header → ct = v0)
          ∧ ((∀ kv ∈ datedRequest.header, kv.1 = str "Content-Type" → kv.2 = []) → ct = [])
          ∧ (v2Presign exampleEnv (str "AK") (str "SK") (3600 * 1000000000)
                datedRequest).strToSign
              = datedRequest.method ++ str "\n" ++ md5 ++ str "\n" ++ ct ++ str "\n"
                ++ formatInt (exampleEnv.now + 3600) ++ str "\n" ++ datedRequest.escapedPath
          ∧ mapGet (urlQuery (v2Presign exampleEnv (str "AK") (str "SK") (3600 * 1000000000)
              datedRequest).request.rawQuery) (str "Expires")
            = some [formatInt (exampleEnv.now + 3600)]
          ∧ mapGet (urlQuery (v2Presign exampleEnv (str "AK") (str "SK") (3600 * 1000000000)
              datedRequest).request.rawQuery) (str "Signature")
            = some [exampleEnv.base64 (exampleEnv.hmacSha1 (str "SK")
                (datedRequest.method ++ str "\n" ++ md5 ++ str "\n" ++ ct ++ str "\n"
                  ++ formatInt (exampleEnv.now + 3600) ++ str "\n"
                  ++ datedRequest.escapedPath))]
          ∧ mapGet (urlQuery (v2Presign exampleEnv (str "AK") (str "SK") (3600 * 1000000000)
              { datedRequest with rawQuery := str "versionId=7" }).request.rawQuery)
                (str "Signature")
            = mapGet (urlQuery (v2Presign exampleEnv (str "AK") (str "SK")
                (3600 * 1000000000) datedRequest).request.rawQuery) (str "Signature"))
      ∧ (str "Content-Md5", [str "1B2M2Y8AsgTpgAmY7PhCfg=="]) ∈ datedRequest.header
      ∧ (str "Content-Type", [str "text/plain"]) ∈ datedRequest.header
      ∧ (v2Presign exampleEnv (str "AK") (str "SK") (3600 * 1000000000)
            datedRequest).strToSign
          = str "PUT\n1B2M2Y8AsgTpgAmY7PhCfg==\ntext/plain\n1700003600\n/bucket/key"
      ∧ mapGet (urlQuery (v2Presign exampleEnv (str "AK") (str "SK") (3600 * 1000000000)
            datedRequest).request.rawQuery) (str "Expires") = some [str "1700003600"]
      ∧ mapGet (urlQuery (v2Presign exampleEnv (str "AK") (str "SK") (3600 * 1000000000)
            datedRequest).request.rawQuery) (str "Signature")
          = some [str "SKPUT\n1B2M2Y8AsgTpgAmY7PhCfg==\ntext/plain\n1700003600\n/bucket/key"]
      ∧ (v2Presign exampleEnv (str "AK") (str "SK") (3600 * 1000000000)
            exampleRequest).strToSign = str "GET\n\n\n1700003600\n/bucket/key" :=
  ⟨by decide, ⟨rfl, rfl, rfl⟩, by decide,
    v2Presign_expires_signature exampleEnv (str "AK") (str "SK") 3600 datedRequest
      { datedRequest with rawQuery := str "versionId=7" } (by decide) ⟨rfl, rfl, rfl⟩
      (by decide),
    by decide, by decide, by decide, by decide, by decide, by decide⟩

/-- Counterexample to C8 as stated: the request had `Expires` with the values
`1` and `2`; after `v2Presign` the parameter `Expires` of the URL has the single
value `1700003600`. -/
theorem v2Presign_replaces_expires :
    mapGet (urlQuery expiringRequest.rawQuery) (str "Expires") = some [str "1", str "2"]
      ∧ mapGet (urlQuery (v2Presign exampleEnv (str "AK") (str "SK") (3600 * 1000000000)
          expiringRequest).request.rawQuery) (str "Expires") = some [str "1700003600"]
      ∧ mapGet (urlQuery (v2Presign exampleEnv (str "AK") (str "SK") (3600 * 1000000000)
          expiringRequest).request.rawQuery) (str "Expires")
        ≠ mapGet (urlQuery expiringRequest.rawQuery) (str "Expires") :=
  ⟨by decide, by decide, by decide⟩

/-- C8, as the code has it. `v2Presign` leaves `AWSAccessKeyId`, `Expires` and
`Signature` in the URL's query with one value each, and every parameter of
another name is in the re-encoded query exactly as the request had it: present
with the same values in the same order, or absent as before. -/
theorem v2Presign_keeps_other_parameters (env : Env) (AccessKey SecretKey : Str)
    (expireTime : Int) (req : Request) (k : Str)
    (h₁ : k ≠ str "AWSAccessKeyId") (h₂ : k ≠ str "Expires") (h₃ : k ≠ str "Signature") :
    mapGet (urlQuery (v2Presign env AccessKey SecretKey expireTime req).request.rawQuery) k
      = mapGet (urlQuery req.rawQuery) k
    ∧ mapGet (urlQuery (v2Presign env AccessKey SecretKey expireTime req).request.rawQuery)
        (str "AWSAccessKeyId") = some [AccessKey]
    ∧ mapGet (urlQuery (v2Presign env AccessKey SecretKey expireTime req).request.rawQuery)
        (str "Expires")
      = some [(v2Presign env AccessKey SecretKey expireTime req).exp]
    ∧ mapGet (urlQuery (v2Presign env AccessKey SecretKey expireTime req).request.rawQuery)
        (str "Signature")
      = some [env.base64 (env.hmacSha1 SecretKey
          (v2Presign env AccessKey SecretKey expireTime req).strToSign)] := by
  simp only [v2Presign_urlQuery]
  refine ⟨?_, ?_, ?_, ?_⟩
  · simp only [v2Presign, valuesSet]
    rw [mapGet_mapSet_of_ne _ _ h₃, mapGet_mapSet_of_ne _ _ h₂, mapGet_mapSet_of_ne _ _ h₁]
  · simp only [v2Presign, valuesSet]
    rw [mapGet_mapSet_of_ne _ _ (by decide), mapGet_mapSet_of_ne _ _ (by decide),
      mapGet_mapSet_self]
  · simp only [v2Presign, valuesSet]
    rw [mapGet_mapSet_of_ne _ _ (by decide), mapGet_mapSet_self]
  · simp only [v2Presign, valuesSet]
    rw [mapGet_mapSet_self]

/-- Witness of C8 (as the code has it): the parameter `x` of `expiringRequest`
keeps its values `a` and `b`. -/
theorem v2Presign_keeps_other_parameters_witness :
    str "x" ≠ str "AWSAccessKeyId" ∧ str "x" ≠ str "Expires" ∧ str "x" ≠ str "Signature"
      ∧ (mapGet (urlQuery (v2Presign exampleEnv (str "AK") (str "SK") (3600 * 1000000000)
            expiringRequest).request.rawQuery) (str "x")
          = mapGet (urlQuery expiringRequest.rawQuery) (str "x")
        ∧ mapGet (urlQuery (v2Presign exampleEnv (str "AK") (str "SK") (3600 * 1000000000)
            expiringRequest).request.rawQuery) (str "AWSAccessKeyId") = some [str "AK"]
        ∧ mapGet (urlQuery (v2Presign exampleEnv (str "AK") (str "SK") (3600 * 1000000000)
            expiringRequest).request.rawQuery) (str "Expires")
          = some [(v2Presign exampleEnv (str "AK") (str "SK") (3600 * 1000000000)
              expiringRequest).exp]
        ∧ mapGet (urlQuery (v2Presign exampleEnv (str "AK") (str "SK") (3600 * 1000000000)
            expiringRequest).request.rawQuery) (str "Signature")
          = some [exampleEnv.base64 (exampleEnv.hmacSha1 (str "SK")
              (v2Presign exampleEnv (str "AK") (str "SK") (3600 * 1000000000)
                expiringRequest).strToSign)])
      ∧ mapGet (urlQuery expiringRequest.rawQuery) (str "x") = some [str "a", str "b"] :=
  ⟨by decide, by decide, by decide,
    v2Presign_keeps_other_parameters exampleEnv (str "AK") (str "SK") (3600 * 1000000000)
      expiringRequest (str "x") (by decide) (by decide) (by decide),
    by decide⟩

/-! ## Independence of the order in which a map is visited -/

/-- The resource string does not depend on the order in which the loop of `sign`
visits the query parameters. -/
theorem uriWithQuery_perm {params params' : Values} (h : params.Perm params') (uri : Str) :
    uriWithQuery uri (queriesToSign params) = uriWithQuery uri (queriesToSign params') := by
  have hp : (queriesToSign params).Perm (queriesToSign params') := by
    unfold queriesToSign
    exact h.flatMap_right _
  unfold uriWithQuery
  rw [sortStrings_congr hp, hp.length_eq]

/-- The lines of the `x-amz-` headers do not depend on the order in which the
loop of `sign` visits `tmpHeadersToSign`. -/
theorem headersToSign_perm {tmp tmp' : List (Str × List Str)} (h : tmp.Perm tmp')
    (hnd : (tmp.map Prod.fst).Nodup) : headersToSign tmp = headersToSign tmp' := by
  have hnd' : (tmp'.map Prod.fst).Nodup := (h.map _).nodup_iff.1 hnd
  unfold headersToSign
  rw [sortStrings_congr (h.map Prod.fst)]
  apply List.map_congr_left
  intro key hkey
  have hmem : key ∈ tmp'.map Prod.fst := (sortStrings_perm _).mem_iff.1 hkey
  obtain ⟨⟨k, vs⟩, hkv, rfl⟩ := List.mem_map.1 hmem
  rw [mapGet_of_mem hnd (h.mem_iff.2 hkv), mapGet_of_mem hnd' hkv]

/-! ## The path component and totality of `sign` -/

/-- C11. For a request whose headers have one or more values each, `sign`
returns, and the path component of the resource string it signs is `/` when
the escaped path of the request is the empty string and the escaped path itself
otherwise; the resource string is that path component followed by the query
part, and it ends the payload. -/
theorem sign_path_component (env : Env) (AccessKey SecretKey : Str) (req : Request)
    (hne : Header.NonemptyValues req.header) :
    ∃ s : Signed, sign env AccessKey SecretKey req = some s
      ∧ (req.escapedPath = [] → s.path = str "/")
      ∧ (req.escapedPath ≠ [] → s.path = req.escapedPath)
      ∧ s.uri = s.path ++
          (if queriesToSign (urlQuery req.rawQuery) = [] then []
           else str "?" ++ stringsJoin (sortStrings (queriesToSign (urlQuery req.rawQuery)))
             (str "&"))
      ∧ s.payload = req.method ++ str "\n" ++ s.md5 ++ str "\n" ++ s.contentType
          ++ str "\n" ++ s.date ++ str "\n" ++ s.joinedHeadersToSign ++ s.uri := by
  obtain ⟨scan, hscan⟩ := sign_scan_isSome env req hne
  refine ⟨_, sign_of_scan env AccessKey SecretKey req scan hscan, ?_, ?_, ?_, rfl⟩
  · intro h
    show (if req.escapedPath = [] then str "/" else req.escapedPath) = str "/"
    rw [if_pos h]
  · intro h
    show (if req.escapedPath = [] then str "/" else req.escapedPath) = req.escapedPath
    rw [if_neg h]
  · show uriWithQuery _ _ = _
    unfold uriWithQuery
    by_cases hq : queriesToSign (urlQuery req.rawQuery) = []
    · simp [hq]
    · have hlen : (queriesToSign (urlQuery req.rawQuery)).length > 0 := List.length_pos.2 hq
      simp only [hlen, if_true, hq, if_false, List.append_assoc]

/-- Witness of C11: the request with the empty escaped path and the query
`location` signs the resource `/?location`. -/
theorem sign_path_component_witness :
    Header.NonemptyValues rootRequest.header
      ∧ rootRequest.escapedPath = []
      ∧ (∃ s : Signed, sign exampleEnv (str "AK") (str "SK") rootRequest = some s
          ∧ (rootRequest.escapedPath = [] → s.path = str "/")
          ∧ (rootRequest.escapedPath ≠ [] → s.path = rootRequest.escapedPath)
          ∧ s.uri = s.path ++
              (if queriesToSign (urlQuery rootRequest.rawQuery) = [] then []
               else str "?" ++ stringsJoin
                 (sortStrings (queriesToSign (urlQuery rootRequest.rawQuery))) (str "&"))
          ∧ s.payload = rootRequest.method ++ str "\n" ++ s.md5 ++ str "\n"
              ++ s.contentType ++ str "\n" ++ s.date ++ str "\n"
              ++ s.joinedHeadersToSign ++ s.uri)
      ∧ (sign exampleEnv (str "AK") (str "SK") rootRequest).map (fun s => (s.path, s.uri))
          = some (str "/", str "/?location")
      ∧ (sign exampleEnv (str "AK") (str "SK") exampleRequest).map (fun s => s.path)
          = some (str "/bucket/key") :=
  ⟨by decide, rfl,
    sign_path_component exampleEnv (str "AK") (str "SK") rootRequest (by decide),
    by decide, by decide⟩

/-- When a header called `name` is present, a variable of the loop that takes
the first value of the header called `name` ends as the first value of such a
header. -/
theorem scanHeaders_value_mem {lower : Str → Str} (g : HeaderScan → Str) (name : Str)
    (hstep : ∀ (acc acc' : HeaderScan) (kv : Str × List Str),
      scanHeader lower acc kv = some acc' →
        g acc' = if lower kv.1 = name then kv.2.headD [] else g acc)
    (hdr : Header) (acc s : HeaderScan) (h : scanHeaders lower hdr acc = some s)
    (hex : ∃ kv ∈ hdr, lower kv.1 = name) :
    ∃ kv ∈ hdr, lower kv.1 = name ∧ g s = kv.2.headD [] := by
  induction hdr generalizing acc with
  | nil =>
    obtain ⟨kv, hkv, -⟩ := hex
    simp at hkv
  | cons e rest ih =>
    simp only [scanHeaders] at h
    cases hacc : scanHeader lower acc e with
    | none => simp [hacc] at h
    | some acc' =>
      simp only [hacc] at h
      by_cases hrest : ∃ kv ∈ rest, lower kv.1 = name
      · obtain ⟨kv, hkv, hname, hg⟩ := ih acc' h hrest
        exact ⟨kv, List.mem_cons_of_mem _ hkv, hname, hg⟩
      · have hnone : ∀ kv ∈ rest, lower kv.1 ≠ name :=
          fun kv hkv hname => hrest ⟨kv, hkv, hname⟩
        have he : lower e.1 = name := by
          obtain ⟨kv, hkv, hname⟩ := hex
          rcases List.mem_cons.1 hkv with heq | hmem
          · rw [← heq]; exact hname
          · exact absurd hname (hnone kv hmem)
        refine ⟨e, List.mem_cons_self _ _, he, ?_⟩
        rw [(scanHeaders_value g name hstep rest acc' s h).1 hnone, hstep acc acc' e hacc,
          if_pos he]

/-- The value that the loop of `sign` leaves in a variable taking the first
value of the header called `name` (a name other than `date`): the first value
of a header of the request called `name` when there is one, the value before
the loop when there is none. -/
theorem sign_scan_first_value {lower : Str → Str} (g : HeaderScan → Str) (name : Str)
    (hstep : ∀ (acc acc' : HeaderScan) (kv : Str × List Str),
      scanHeader lower acc kv = some acc' →
        g acc' = if lower kv.1 = name then kv.2.headD [] else g acc)
    (hname : lower (str "Date") ≠ name)
    (date : Str) (hdr : Header) (hne : Header.NonemptyValues hdr) (acc s : HeaderScan)
    (h : scanHeaders lower (headerSet hdr (str "Date") date) acc = some s) :
    ((∃ kv ∈ hdr, lower kv.1 = name) →
        ∃ k v0 rest, (k, v0 :: rest) ∈ hdr ∧ lower k = name ∧ g s = v0)
      ∧ ((∀ kv ∈ hdr, lower kv.1 ≠ name) → g s = g acc) := by
  constructor
  · rintro ⟨kv, hkv, hkname⟩
    have hkv' : kv ∈ headerSet hdr (str "Date") date := by
      have hmem : kv ∈ (headerSet hdr (str "Date") date).filter
          (fun e => decide (lower e.1 = name)) := by
        rw [show (headerSet hdr (str "Date") date).filter
            (fun e => decide (lower e.1 = name))
            = hdr.filter (fun e => decide (lower e.1 = name)) from
          filter_mapSet _ _ _ _ (fun _ => by simpa using hname)]
        exact List.mem_filter.2 ⟨hkv, by simpa using hkname⟩
      exact (List.mem_filter.1 hmem).1
    obtain ⟨⟨k, vs⟩, hmem, hk, hg⟩ :=
      scanHeaders_value_mem g name hstep _ acc s h ⟨kv, hkv', hkname⟩
    have hin : (k, vs) ∈ hdr := by
      rcases mem_mapSet hmem with hd | hd
      · exact absurd (by rw [hd] at hk; exact hk) hname
      · exact hd
    cases vs with
    | nil => exact absurd rfl (hne _ hin)
    | cons v0 rest => exact ⟨k, v0, rest, hin, hk, hg⟩
  · intro hnone
    apply (scanHeaders_value g name hstep _ acc s h).1
    intro kv hkv
    rcases mem_mapSet hkv with hd | hd
    · rw [hd]; exact hname
    · exact hnone kv hd

/-- C12. For a request whose headers have one or more values each, `sign` does
not panic: it returns; the `Content-MD5` and the `Content-Type` component of the
payload are the first value of a header of that name (compared in lower case)
when the request has one, and the empty string when it has none. -/
theorem sign_total (env : Env) (AccessKey SecretKey : Str) (req : Request)
    (hne : Header.NonemptyValues req.header) :
    ∃ s : Signed, sign env AccessKey SecretKey req = some s
      ∧ ((∃ kv ∈ req.header, env.toLower kv.1 = str "content-md5") →
          ∃ k v0 rest, (k, v0 :: rest) ∈ req.header ∧ env.toLower k = str "content-md5"
            ∧ s.md5 = v0)
      ∧ ((∃ kv ∈ req.header, env.toLower kv.1 = str "content-type") →
          ∃ k v0 rest, (k, v0 :: rest) ∈ req.header ∧ env.toLower k = str "content-type"
            ∧ s.contentType = v0)
      ∧ ((∀ kv ∈ req.header, env.toLower kv.1 ≠ str "content-md5") → s.md5 = [])
      ∧ ((∀ kv ∈ req.header, env.toLower kv.1 ≠ str "content-type") → s.contentType = [])
      ∧ s.payload = req.method ++ str "\n" ++ s.md5 ++ str "\n" ++ s.contentType
          ++ str "\n" ++ s.date ++ str "\n" ++ s.joinedHeadersToSign ++ s.uri := by
  obtain ⟨scan, hscan⟩ := sign_scan_isSome env req hne
  obtain ⟨hm₁, hm₂⟩ := sign_scan_first_value (fun a => a.md5) (str "content-md5")
    (fun _ _ _ h => scanHeader_md5 h) (by rw [env.toLower_date]; decide) _ req.header hne _
    scan hscan
  obtain ⟨hc₁, hc₂⟩ := sign_scan_first_value (fun a => a.contentType) (str "content-type")
    (fun _ _ _ h => scanHeader_contentType h) (by rw [env.toLower_date]; decide) _
    req.header hne _ scan hscan
  exact ⟨_, sign_of_scan env AccessKey SecretKey req scan hscan, hm₁, hc₁, hm₂, hc₂, rfl⟩

/-- Witness of C12: `datedRequest` has both headers, `exampleRequest` has
neither. -/
theorem sign_total_witness :
    Header.NonemptyValues datedRequest.header
      ∧ (∃ s : Signed, sign exampleEnv (str "AK") (str "SK") datedRequest = some s
          ∧ ((∃ kv ∈ datedRequest.header, exampleEnv.toLower kv.1 = str "content-md5") →
              ∃ k v0 rest, (k, v0 :: rest) ∈ datedRequest.header
                ∧ exampleEnv.toLower k = str "content-md5" ∧ s.md5 = v0)
          ∧ ((∃ kv ∈ datedRequest.header, exampleEnv.toLower kv.1 = str "content-type") →
              ∃ k v0 rest, (k, v0 :: rest) ∈ datedRequest.header
                ∧ exampleEnv.toLower k = str "content-type" ∧ s.contentType = v0)
          ∧ ((∀ kv ∈ datedRequest.header, exampleEnv.toLower kv.1 ≠ str "content-md5") → s.md5 = [])
          ∧ ((∀ kv ∈ datedRequest.header, exampleEnv.toLower kv.1 ≠ str "content-type") →
              s.contentType = [])
          ∧ s.payload = datedRequest.method ++ str "\n" ++ s.md5 ++ str "\n"
              ++ s.contentType ++ str "\n" ++ s.date ++ str "\n"
              ++ s.joinedHeadersToSign ++ s.uri)
      ∧ (sign exampleEnv (str "AK") (str "SK") datedRequest).map
          (fun s => (s.md5, s.contentType))
          = some (str "1B2M2Y8AsgTpgAmY7PhCfg==", str "text/plain")
      ∧ (sign exampleEnv (str "AK") (str "SK") exampleRequest).map
          (fun s => (s.md5, s.contentType)) = some ([], []) :=
  ⟨by decide,
    sign_total exampleEnv (str "AK") (str "SK") datedRequest (by decide),
    by decide, by decide⟩

/-- The hypothesis of C12 is needed: with a `Content-MD5` header that has no
value, `v[0]` panics. -/
theorem sign_panics_without_value :
    ¬ Header.NonemptyValues emptyValueRequest.header
      ∧ sign exampleEnv (str "AK") (str "SK") emptyValueRequest = none :=
  ⟨by decide, rfl⟩

/-! ## A header name that is not ASCII -/

/-- With a lower-casing that folds `É` to `é` (the bytes `C3 A9`), the line that
`sign` puts in the payload for the header `X-Amz-Meta-É` is `x-amz-meta-é:a,b`. -/
theorem sign_accented_header :
    Header.CaseInsensitive latin1Env.toLower accentedRequest.header
      ∧ Header.NonemptyValues accentedRequest.header
      ∧ (sign latin1Env (str "AK") (str "SK") accentedRequest).map
          (fun s => s.joinedHeadersToSign)
        = some (str "x-amz-meta-" ++ [195, 169] ++ str ":a,b\n") :=
  ⟨by decide, by decide, by decide⟩

end S3cli
